import Mathlib

/-!
Verification development for the bee configuration-resolution engine
(package bee: comandLine.parse / subParse / parseValue and friends).

The Go source is embedded shallowly:
  * machine integers become Nat / Int with explicit bounds where the code
    checks them (strconv bit sizes);
  * the reflective struct walk becomes a walk over an explicit tree of
    fields (mutual inductive Node / Fields);
  * in-place mutation through pointers becomes explicit state passing:
    the walk returns the updated field tree, the flag registry stores
    paths into that tree instead of pointers;
  * fallible code returns Except / Option.

Strings are treated as their character lists; the Go code operates on
bytes, which coincides with characters on the ASCII inputs the engine
deals in (field names, tags, flag tokens).

The float64 branch of the coercion dispatch is not modelled (floating
point); no claim touches it.  The custom types StringSlice, IntSlice,
URL and Time have their Set methods outside the provided sources; they
are modelled from the spec where so marked.
-/

namespace Bee

/-- Go reflect.Kind, restricted to the kinds the engine can meet. -/
inductive RKind
  | kBool | kString | kUint | kUint64 | kInt | kInt64 | kStruct | kSlice | kMap
  deriving DecidableEq, Repr

/-- Go reflect.Kind.String() for the kinds above. -/
def kindName : RKind → String
  | .kBool => "bool"
  | .kString => "string"
  | .kUint => "uint"
  | .kUint64 => "uint64"
  | .kInt => "int"
  | .kInt64 => "int64"
  | .kStruct => "struct"
  | .kSlice => "slice"
  | .kMap => "map"

/-- Quotation as produced by the %q format verb; escaping of special
characters is not modelled (all texts involved are plain ASCII). -/
def quoteStr (s : String) : String := "\"" ++ s ++ "\""

/-- Message text of a strconv.NumError, e.g.
strconv.ParseUint: parsing "x": invalid syntax. -/
def strconvErr (fn s reason : String) : String :=
  "strconv." ++ fn ++ ": parsing " ++ quoteStr s ++ ": " ++ reason

def synMsg : String := "invalid syntax"
def rangeMsg : String := "value out of range"

/-- A strconv NumError, kept structurally: the flag package later maps
it to its generic parse error or range error, while the engine's own
wrapping renders the full message. -/
structure SErr where
  fn : String
  arg : String
  range : Bool
  deriving DecidableEq, Repr

/-- The %v text of a NumError. -/
def sErrMsg (e : SErr) : String :=
  strconvErr e.fn e.arg (if e.range then rangeMsg else synMsg)

/-- The flag package's numError conversion: range errors print as
value out of range, anything else as parse error. -/
def numErrText (e : SErr) : String :=
  if e.range then rangeMsg else "parse error"

/-- Decimal digit value of a character. -/
def digitVal (c : Char) : Nat := c.toNat - '0'.toNat

/-- Value accumulated left to right, mirroring strconv's n = n*base + d loop. -/
def accDigits (base : Nat) (l : List Nat) : Nat :=
  l.foldl (fun a d => base * a + d) 0

/-- Models strconv.ParseBool. -/
def goParseBool (s : String) : Except SErr Bool :=
  if s = "1" ∨ s = "t" ∨ s = "T" ∨ s = "TRUE" ∨ s = "true" ∨ s = "True" then
    .ok true
  else if s = "0" ∨ s = "f" ∨ s = "F" ∨ s = "FALSE" ∨ s = "false" ∨ s = "False" then
    .ok false
  else
    .error ⟨"ParseBool", s, false⟩

/-- Models strconv.ParseUint(s, 10, bits): no sign, decimal digits only,
result bounded by 2^bits - 1.  Go checks the bound incrementally with a
cutoff; over unbounded Nat computing the full value first is equivalent. -/
def goParseUint (s : String) (bits : Nat) : Except SErr Nat :=
  let cs := s.toList
  if cs = [] ∨ ¬ cs.all Char.isDigit then
    .error ⟨"ParseUint", s, false⟩
  else
    let v := accDigits 10 (cs.map digitVal)
    if v < 2 ^ bits then .ok v else .error ⟨"ParseUint", s, true⟩

/-- Signed decimal parse shared by Atoi and ParseInt at base 10:
optional single sign, then digits, result within the two's-complement
range of the given bit size. -/
def goParseIntCore (fn : String) (s : String) (bits : Nat) : Except SErr Int :=
  let cs := s.toList
  let (neg, ds) : Bool × List Char :=
    match cs with
    | '+' :: rest => (false, rest)
    | '-' :: rest => (true, rest)
    | _ => (false, cs)
  if ds = [] ∨ ¬ ds.all Char.isDigit then
    .error ⟨fn, s, false⟩
  else
    let v : Nat := accDigits 10 (ds.map digitVal)
    if neg then
      if v ≤ 2 ^ (bits - 1) then .ok (-(v : Int)) else .error ⟨fn, s, true⟩
    else
      if v < 2 ^ (bits - 1) then .ok (v : Int) else .error ⟨fn, s, true⟩

/-- Models strconv.Atoi = ParseInt(s, 10, 0) on a 64-bit platform. -/
def goAtoi (s : String) : Except SErr Int := goParseIntCore "Atoi" s 64

/-- Models strconv.ParseInt(s, 10, 64). -/
def goParseInt64 (s : String) : Except SErr Int := goParseIntCore "ParseInt" s 64

/-- Digit value in an arbitrary base; none when the character is not a
digit of that base (ASCII letters for bases above ten). -/
def baseDigit (base : Nat) (c : Char) : Option Nat :=
  let v :=
    if c.isDigit then some (digitVal c)
    else if 'a' ≤ c ∧ c ≤ 'z' then some (c.toNat - 'a'.toNat + 10)
    else if 'A' ≤ c ∧ c ≤ 'Z' then some (c.toNat - 'A'.toNat + 10)
    else none
  match v with
  | some d => if d < base then some d else none
  | none => none

def baseDigits (base : Nat) : List Char → Option Nat
  | [] => none
  | cs =>
    cs.foldl
      (fun acc c =>
        match acc, baseDigit base c with
        | some a, some d => some (base * a + d)
        | _, _ => none)
      (some 0)

/-- Base detection of strconv.ParseInt with base argument 0: 0x/0X hex,
0o/0O octal, 0b/0B binary, a further leading 0 octal, else decimal.
Underscore-grouped literals are not modelled. -/
def splitBasePrefix : List Char → Nat × List Char
  | '0' :: 'x' :: rest => (16, rest)
  | '0' :: 'X' :: rest => (16, rest)
  | '0' :: 'o' :: rest => (8, rest)
  | '0' :: 'O' :: rest => (8, rest)
  | '0' :: 'b' :: rest => (2, rest)
  | '0' :: 'B' :: rest => (2, rest)
  | '0' :: c :: rest => (8, c :: rest)
  | cs => (10, cs)

/-- Models strconv.ParseInt(s, 0, 64), the parse behind the flag
package's integer Value.Set. -/
def goParseInt0 (s : String) : Except SErr Int :=
  let cs := s.toList
  let (neg, body) : Bool × List Char :=
    match cs with
    | '+' :: rest => (false, rest)
    | '-' :: rest => (true, rest)
    | _ => (false, cs)
  let (base, ds) := splitBasePrefix body
  match baseDigits base ds with
  | none =>
    if body = ['0'] then .ok 0 else .error ⟨"ParseInt", s, false⟩
  | some v =>
    if neg then
      if v ≤ 2 ^ 63 then .ok (-(v : Int)) else .error ⟨"ParseInt", s, true⟩
    else
      if v < 2 ^ 63 then .ok (v : Int) else .error ⟨"ParseInt", s, true⟩

/-- Models strconv.ParseUint(s, 0, 64), behind the flag package's
unsigned Value.Set. -/
def goParseUint0 (s : String) : Except SErr Nat :=
  let cs := s.toList
  let (base, ds) := splitBasePrefix cs
  match baseDigits base ds with
  | none =>
    if cs = ['0'] then .ok 0 else .error ⟨"ParseUint", s, false⟩
  | some v =>
    if v < 2 ^ 64 then .ok v else .error ⟨"ParseUint", s, true⟩

/-- Nanosecond multiplier of a time.ParseDuration unit token. -/
def durUnit : List Char → Option (Int × List Char)
  | 'n' :: 's' :: rest => some (1, rest)
  | 'u' :: 's' :: rest => some (1000, rest)
  | 'µ' :: 's' :: rest => some (1000, rest)
  | 'μ' :: 's' :: rest => some (1000, rest)
  | 'm' :: 's' :: rest => some (1000000, rest)
  | 'm' :: rest => some (60000000000, rest)
  | 's' :: rest => some (1000000000, rest)
  | 'h' :: rest => some (3600000000000, rest)
  | _ => none

/-- One pass of time.ParseDuration's component loop (fuelled by the
remaining input length; each component consumes at least one character).
Fractional components and overflow saturation are not modelled: no claim
exercises them, and the engine's duration texts (10s, 24h, 168h) are
integral. -/
def durGroups : Nat → List Char → Except String Int
  | _, [] => .ok 0
  | 0, _ => .error "time: invalid duration"
  | fuel + 1, cs =>
    let ds := cs.takeWhile Char.isDigit
    let rest := cs.dropWhile Char.isDigit
    if ds = [] then .error "time: invalid duration"
    else
      let v : Nat := accDigits 10 (ds.map digitVal)
      match durUnit rest with
      | none => .error "time: missing unit in duration"
      | some (mult, rest2) =>
        match durGroups fuel rest2 with
        | .ok tail => .ok ((v : Int) * mult + tail)
        | .error e => .error e

/-- Models time.ParseDuration: optional sign, then one or more
number-unit components; the bare string 0 is allowed without a unit. -/
def goParseDuration (s : String) : Except String Int :=
  let cs := s.toList
  let (neg, body) : Bool × List Char :=
    match cs with
    | '+' :: rest => (false, rest)
    | '-' :: rest => (true, rest)
    | _ => (false, cs)
  if body = ['0'] then .ok 0
  else if body = [] then .error "time: invalid duration"
  else
    match durGroups body.length body with
    | .ok v => .ok (if neg then -v else v)
    | .error e => .error e

/-! ### The strcase library (github.com/iancoleman/strcase)

The engine derives flag and environment names through
strcase.ToKebab, strcase.ToScreamingSnake and strcase.ToDelimited,
all thin wrappers over ToScreamingDelimited.  That function is
modelled below character for character (the ignore parameter is
always empty in these wrappers and is dropped). -/

def isUpA (c : Char) : Bool := 'A' ≤ c && c ≤ 'Z'
def isLoA (c : Char) : Bool := 'a' ≤ c && c ≤ 'z'
def isNumA (c : Char) : Bool := '0' ≤ c && c ≤ '9'
def loA (c : Char) : Char := if isUpA c then Char.ofNat (c.toNat + 32) else c
def upA (c : Char) : Char := if isLoA c then Char.ofNat (c.toNat - 32) else c

/-- Character loop of strcase.ToScreamingDelimited; prev is the
original previous character of the input, if any. -/
def tsdGo (delim : Char) (screaming : Bool) : Option Char → List Char → List Char
  | _, [] => []
  | prev, v :: rest =>
    let vIsCap := isUpA v
    let vIsLow := isLoA v
    let w := if vIsLow && screaming then upA v else if vIsCap && !screaming then loA v else v
    let vIsNum := isNumA w
    let split :=
      match rest with
      | [] => false
      | next :: _ =>
        (vIsCap && (isLoA next || isNumA next)) || (vIsLow && (isUpA next || isNumA next)) ||
          (vIsNum && (isUpA next || isLoA next))
    if split then
      let nextIsNum := match rest with | [] => false | next :: _ => isNumA next
      let lead :=
        if vIsCap && (match rest with | [] => false | next :: _ => isLoA next) then
          match prev with
          | some p => if isUpA p then [delim] else []
          | none => []
        else []
      lead ++ [w] ++ (if vIsLow || vIsNum || nextIsNum then [delim] else []) ++
        tsdGo delim screaming (some v) rest
    else
      (if (w = ' ' ∨ w = '_' ∨ w = '-' ∨ w = '.') ∧ w ≠ delim then [delim] else [w]) ++
        tsdGo delim screaming (some v) rest

/-- Models strcase.ToScreamingDelimited(s, delim, "", screaming). -/
def toScreamingDelimited (s : String) (delim : Char) (screaming : Bool) : String :=
  let cs := (s.toList.dropWhile Char.isWhitespace).reverse.dropWhile Char.isWhitespace
  String.mk (tsdGo delim screaming none cs.reverse)

/-- Models strcase.ToKebab. -/
def toKebab (s : String) : String := toScreamingDelimited s '-' false

/-- Models strcase.ToScreamingSnake. -/
def toScreamingSnake (s : String) : String := toScreamingDelimited s '_' true

/-- Models strcase.ToDelimited(s, ' '), used for usage text. -/
def toDelimitedSpace (s : String) : String := toScreamingDelimited s ' ' false

/-! ### Errors

Go errors built with errors.New and fmt.Errorf %w chains are embedded
structurally; errMsg renders the %v text of each. -/

inductive BErr
  | invalidConfigType
  | unsupported (k : RKind)
  | parseErr (what text cause : String)
  | fieldErr (fname phase : String) (inner : BErr)
  | flagHelp
  | flagNotDefined (name : String)
  | badFlagSyn (arg : String)
  | flagNeedsArg (name : String)
  | flagBadBool (value name cause : String)
  | flagBadValue (value name cause : String)
  deriving DecidableEq, Repr

/-- Rendering of each error's message, following the fmt format strings
in the source. -/
def errMsg : BErr → String
  | .invalidConfigType => "invalid config type"
  | .unsupported k => "parsing value: type not supported: " ++ kindName k
  | .parseErr w t c => "parsing " ++ w ++ " " ++ quoteStr t ++ ": " ++ c
  | .fieldErr n p e => n ++ " " ++ p ++ ": " ++ errMsg e
  | .flagHelp => "flag: help requested"
  | .flagNotDefined n => "flag provided but not defined: -" ++ n
  | .badFlagSyn a => "bad flag syntax: " ++ a
  | .flagNeedsArg n => "flag needs an argument: -" ++ n
  | .flagBadBool v n c => "invalid boolean value " ++ quoteStr v ++ " for -" ++ n ++ ": " ++ c
  | .flagBadValue v n c => "invalid value " ++ quoteStr v ++ " for flag -" ++ n ++ ": " ++ c

/-- errors.Is(e, flag.ErrHelp): the help sentinel is never wrapped by
the engine on the paths that reach cl.exit. -/
def isHelpErr : BErr → Bool
  | .flagHelp => true
  | _ => false

/-- errors.Is(e, ErrUnsupportedType), unwrapping the %w chains the
engine builds around it. -/
def isUnsupportedErr : BErr → Bool
  | .unsupported _ => true
  | .fieldErr _ _ e => isUnsupportedErr e
  | _ => false

/-! ### The configuration record

A caller record is a tree: terminal fields hold a typed value, nested
records are recursed into.  bee.URL and bee.Time are struct-kinded but
terminal (the walk tests for them by type assertion), so they live in
TermVal, not in Node.sub. -/

/-- Payload of a bee.URL field.  Modelled from the spec: the URL type
(its source file is not among the provided sources) stores any string
parseable as a URL; the parsed representation is kept as the raw text. -/
structure UrlVal where
  raw : String
  deriving DecidableEq, Repr

/-- Payload of a bee.Time field.  Modelled from the spec: the Time type
(source file not provided) stores an RFC 3339 timestamp; the instant is
kept as the raw text. -/
structure TimeVal where
  raw : String
  deriving DecidableEq, Repr

/-- Value of one terminal field, tagged by its Go type.  vMap stands
for a field of map kind, the spec's example of a kind outside the
coercion dispatch table.  float64 fields are not modelled. -/
inductive TermVal
  | vBool (b : Bool)
  | vString (s : String)
  | vUint (n : Nat)
  | vUint64 (n : Nat)
  | vInt (i : Int)
  | vInt64 (i : Int)
  | vDuration (ns : Int)
  | vURL (u : UrlVal)
  | vTime (t : TimeVal)
  | vStrSlice (l : List String)
  | vIntSlice (l : List Int)
  | vMap
  deriving DecidableEq, Repr

/-- reflect.Kind of a terminal field's declared type. -/
def goKind : TermVal → RKind
  | .vBool _ => .kBool
  | .vString _ => .kString
  | .vUint _ => .kUint
  | .vUint64 _ => .kUint64
  | .vInt _ => .kInt
  | .vInt64 _ => .kInt64
  | .vDuration _ => .kInt64
  | .vURL _ => .kStruct
  | .vTime _ => .kStruct
  | .vStrSlice _ => .kSlice
  | .vIntSlice _ => .kSlice
  | .vMap => .kMap

/-- Struct tags of one field; reflect's Tag.Get yields the empty string
when a tag is absent, so absence is the empty string here too. -/
structure Tags where
  flag : String
  env : String
  help : String
  defv : String
  deriving DecidableEq, Repr

def noTags : Tags := ⟨"", "", "", ""⟩

/-- A Tags value carrying only a def tag. -/
def defTag (d : String) : Tags := ⟨"", "", "", d⟩

mutual
inductive Node
  | term (v : TermVal)
  | sub (fs : Fields)

inductive Fields
  | nil
  | cons (name : String) (tags : Tags) (nd : Node) (rest : Fields)
end

/- Field lookup along a path of field names (the model of a pointer
into the record, as captured by a flag registration). -/
mutual
def getN : Node → List String → Option TermVal
  | .term v, [] => some v
  | .term _, _ :: _ => none
  | .sub fs, path => getF fs path

def getF : Fields → List String → Option TermVal
  | .nil, _ => none
  | .cons nm _ nd rest, path =>
    match path with
    | [] => none
    | p :: ps => if p = nm then getN nd ps else getF rest path
end

/- Writing through the model of a pointer: replace the terminal value
at a path, leaving everything else in place. -/
mutual
def setN : Node → List String → TermVal → Node
  | .term _, [], v => .term v
  | .term w, _ :: _, _ => .term w
  | .sub fs, path, v => .sub (setF fs path v)

def setF : Fields → List String → TermVal → Fields
  | .nil, _, _ => .nil
  | .cons nm tags nd rest, path, v =>
    match path with
    | [] => .cons nm tags nd rest
    | p :: ps =>
      if p = nm then .cons nm tags (setN nd ps v) rest
      else .cons nm tags nd (setF rest path v)
end

/-! ### The custom flag types' Set methods

Their source file is not among the provided sources; they are modelled
from the spec's descriptions of the four textual composite formats. -/

/-- Models strings.Split(s, ",") for the list types. -/
def splitCommaCs : List Char → List Char → List (List Char)
  | cur, [] => [cur.reverse]
  | cur, c :: rest =>
    if c = ',' then cur.reverse :: splitCommaCs [] rest
    else splitCommaCs (c :: cur) rest

def splitComma (s : String) : List String :=
  (splitCommaCs [] s.toList).map String.mk

/-- Modelled from the spec: StringSlice.Set (source file missing) turns
comma-separated text into the ordered list of pieces and never fails. -/
def strSliceSet (s : String) : List String := splitComma s

/-- Modelled from the spec: IntSlice.Set (source file missing) parses
each comma-separated piece as a signed integer; the first piece that
fails to parse aborts the whole field, and per the spec's error-design
section the resulting ParseError wraps the field's source text. -/
def intSliceSet (s : String) : Except BErr (List Int) :=
  match (splitComma s).mapM goAtoi with
  | .ok l => .ok l
  | .error c => .error (.parseErr "int slice" s (sErrMsg c))

/-- Modelled from the spec: URL.Set (source file missing) accepts any
string parseable as a URL; syntactic validity is abstracted as the
absence of ASCII control characters, and failure yields a ParseError
wrapping the source text. -/
def urlSet (s : String) : Except BErr UrlVal :=
  if s.toList.all (fun c => 32 ≤ c.toNat) then .ok ⟨s⟩
  else .error (.parseErr "url" s "net/url: invalid control character in URL")

/-- Shape check for one digit-run of an RFC 3339 text. -/
def digitRun (n : Nat) (cs : List Char) : Bool :=
  cs.length = n && cs.all Char.isDigit

/-- Modelled from the spec: Time.Set (source file missing) accepts an
RFC 3339 timestamp, e.g. 2002-10-02T10:00:00-05:00; the date-time
grammar is checked by shape and failure yields a ParseError wrapping
the source text. -/
def timeSet (s : String) : Except BErr TimeVal :=
  let ok :=
    match s.toList with
    | y1 :: y2 :: y3 :: y4 :: '-' :: m1 :: m2 :: '-' :: d1 :: d2 :: 'T' ::
        h1 :: h2 :: ':' :: n1 :: n2 :: ':' :: s1 :: s2 :: zone =>
      digitRun 4 [y1, y2, y3, y4] && digitRun 2 [m1, m2] && digitRun 2 [d1, d2] &&
        digitRun 2 [h1, h2] && digitRun 2 [n1, n2] && digitRun 2 [s1, s2] &&
        (zone = ['Z'] ||
          (match zone with
           | sg :: z1 :: z2 :: ':' :: z3 :: z4 :: [] =>
             (sg = '+' || sg = '-') && digitRun 2 [z1, z2] && digitRun 2 [z3, z4]
           | _ => false))
    | _ => false
  if ok then .ok ⟨s⟩
  else .error (.parseErr "time" s "cannot parse as RFC3339")

/-! ### Flag registration

flag.FlagSet.XxxVar writes the supplied default through the pointer at
registration time and records the flag; the pointer becomes a path into
the record tree.  Whether the flag is boolean decides the final parse's
argument consumption (boolValue implements IsBoolFlag). -/

structure Reg where
  name : String
  path : List String
  isBool : Bool
  usage : String
  deriving DecidableEq, Repr

/-! ### Name derivation (comandLine.flagName / envVarName / usage) -/

/-- comandLine.flagName: flag tag verbatim if present, else kebab-case
of the prefix chain joined to the field name with a dash. -/
def flagNameF (nm : String) (tags : Tags) (pfx : String) : String :=
  if tags.flag ≠ "" then tags.flag
  else toKebab (if pfx ≠ "" then pfx ++ "-" ++ nm else nm)

/-- comandLine.envVarName: env tag verbatim if present, else screaming
snake case of command name, prefix and field name joined by
underscores. -/
def envVarNameF (cmd nm : String) (tags : Tags) (pfx : String) : String :=
  if tags.env ≠ "" then tags.env
  else
    toScreamingSnake
      (if pfx ≠ "" then cmd ++ "_" ++ pfx ++ "_" ++ nm else cmd ++ "_" ++ nm)

/-- comandLine.usage: help tag or space-delimited phrase, both with the
env name appended. -/
def usageF (nm : String) (tags : Tags) (env pfx : String) : String :=
  if tags.help ≠ "" then tags.help ++ " (env " ++ env ++ ")"
  else
    toDelimitedSpace (if pfx ≠ "" then pfx ++ " " ++ nm else nm) ++
      " (env " ++ env ++ ")"

/-- comandLine.newPrefix: extend the prefix chain with a field name. -/
def childPfx (nm pfx : String) : String :=
  if pfx ≠ "" then pfx ++ "-" ++ nm else nm

/-! ### Per-kind coercion (comandLine.parseBool … parseTime)

Each function mirrors one parseXxx method: empty source text registers
the kind's zero value without parsing; otherwise the text is parsed and
a failure is wrapped as a ParseError carrying the text.  Registration
through flag.XxxVar both writes the chosen default into the field and
records the flag, so each returns the new field value and the Reg. -/

def parseBoolF (_p : Bool) (fN value usage : String) (path : List String) :
    Except BErr (TermVal × Reg) :=
  if value = "" then .ok (.vBool false, ⟨fN, path, true, usage⟩)
  else
    match goParseBool value with
    | .error c => .error (.parseErr "bool" value (sErrMsg c))
    | .ok b => .ok (.vBool b, ⟨fN, path, true, usage⟩)

def parseUintF (_p : Nat) (fN value usage : String) (path : List String) :
    Except BErr (TermVal × Reg) :=
  if value = "" then .ok (.vUint 0, ⟨fN, path, false, usage⟩)
  else
    match goParseUint value 32 with
    | .error c => .error (.parseErr "uint" value (sErrMsg c))
    | .ok n => .ok (.vUint n, ⟨fN, path, false, usage⟩)

def parseUint64F (_p : Nat) (fN value usage : String) (path : List String) :
    Except BErr (TermVal × Reg) :=
  if value = "" then .ok (.vUint64 0, ⟨fN, path, false, usage⟩)
  else
    match goParseUint value 64 with
    | .error c => .error (.parseErr "uint64" value (sErrMsg c))
    | .ok n => .ok (.vUint64 n, ⟨fN, path, false, usage⟩)

def parseIntF (_p : Int) (fN value usage : String) (path : List String) :
    Except BErr (TermVal × Reg) :=
  if value = "" then .ok (.vInt 0, ⟨fN, path, false, usage⟩)
  else
    match goAtoi value with
    | .error c => .error (.parseErr "int" value (sErrMsg c))
    | .ok i => .ok (.vInt i, ⟨fN, path, false, usage⟩)

def parseInt64F (_p : Int) (fN value usage : String) (path : List String) :
    Except BErr (TermVal × Reg) :=
  if value = "" then .ok (.vInt64 0, ⟨fN, path, false, usage⟩)
  else
    match goParseInt64 value with
    | .error c => .error (.parseErr "int64" value (sErrMsg c))
    | .ok i => .ok (.vInt64 i, ⟨fN, path, false, usage⟩)

def parseDurationF (_p : Int) (fN value usage : String) (path : List String) :
    Except BErr (TermVal × Reg) :=
  if value = "" then .ok (.vDuration 0, ⟨fN, path, false, usage⟩)
  else
    match goParseDuration value with
    | .error c => .error (.parseErr "duration" value c)
    | .ok i => .ok (.vDuration i, ⟨fN, path, false, usage⟩)

/-- parseStringSlice: the non-empty branch discards Set's error result
(the source reads underscore-assign) and installs whatever Set
produced, so this branch can never fail. -/
def parseStrSliceF (fN value usage : String) (path : List String) :
    Except BErr (TermVal × Reg) :=
  if value = "" then .ok (.vStrSlice [], ⟨fN, path, false, usage⟩)
  else .ok (.vStrSlice (strSliceSet value), ⟨fN, path, false, usage⟩)

def parseIntSliceF (fN value usage : String) (path : List String) :
    Except BErr (TermVal × Reg) :=
  if value = "" then .ok (.vIntSlice [], ⟨fN, path, false, usage⟩)
  else
    match intSliceSet value with
    | .error e => .error e
    | .ok l => .ok (.vIntSlice l, ⟨fN, path, false, usage⟩)

def parseURLF (fN value usage : String) (path : List String) :
    Except BErr (TermVal × Reg) :=
  if value = "" then .ok (.vURL ⟨""⟩, ⟨fN, path, false, usage⟩)
  else
    match urlSet value with
    | .error e => .error e
    | .ok u => .ok (.vURL u, ⟨fN, path, false, usage⟩)

def parseTimeF (fN value usage : String) (path : List String) :
    Except BErr (TermVal × Reg) :=
  if value = "" then .ok (.vTime ⟨""⟩, ⟨fN, path, false, usage⟩)
  else
    match timeSet value with
    | .error e => .error e
    | .ok t => .ok (.vTime t, ⟨fN, path, false, usage⟩)

/-- comandLine.parseValue: dispatch on the field's reflect.Kind, with
the inner type assertions resolved by the TermVal constructor (in Go a
kind-matching field of a foreign named type would also fall through to
the UnsupportedType error; such fields are represented by vMap, as is
the spec's map example).  The string kind binds the text verbatim with
no parse.  A kind outside the table yields
ErrUnsupportedType naming the kind. -/
def parseValue (v : TermVal) (fN value usage : String) (path : List String) :
    Except BErr (TermVal × Reg) :=
  match v with
  | .vBool b => parseBoolF b fN value usage path
  | .vString _ => .ok (.vString value, ⟨fN, path, false, usage⟩)
  | .vUint n => parseUintF n fN value usage path
  | .vUint64 n => parseUint64F n fN value usage path
  | .vInt i => parseIntF i fN value usage path
  | .vInt64 i => parseInt64F i fN value usage path
  | .vDuration d => parseDurationF d fN value usage path
  | .vURL _ => parseURLF fN value usage path
  | .vTime _ => parseTimeF fN value usage path
  | .vStrSlice _ => parseStrSliceF fN value usage path
  | .vIntSlice _ => parseIntSliceF fN value usage path
  | .vMap => .error (.unsupported .kMap)

/-! ### The command-line surface and the schema walk -/

/-- flag.ErrorHandling. -/
inductive EH
  | contOnErr
  | exitOnErr
  | panicOnErr
  deriving DecidableEq, Repr

/-- The comandLine fields the resolution depends on: command name,
injected environment lookup, error-handling policy.  The flag set is
threaded explicitly as the registration list; the output writer is
identified with the printed text of the outcome. -/
structure CL where
  name : String
  lookupEnv : String → Option String
  errorHandling : EH

/-- comandLine.parseHelp: scan the raw argument list for a literal help
token. -/
def isHelpToken (f : String) : Bool :=
  f = "--help" || f = "-help" || f = "--h" || f = "-h"

def hasHelpToken (flags : List String) : Bool :=
  flags.any isHelpToken

/-- Result of the walk: environment names passed to the lookup function
in order, flags registered in order, the (possibly partially) mutated
field tree, and the first error if any — the walk stops there. -/
structure WOut where
  looked : List String
  regs : List Reg
  fields : Fields
  err : Option BErr

/-- comandLine.subParse's field loop.  hlp is the help flag parseHelp
derived from the raw arguments (recursive subParse calls recompute it
identically, and the recursive pointer-to-struct check always passes).
For a nested record that is not URL or Time the walk recurses with the
extended prefix; for a terminal field it performs the environment
lookup unconditionally, then takes the environment path only when the
lookup succeeded and no help token was seen, else the default path.
The source also computes the three derived names before the
namespace-field check; they are pure and unused there, so this walk
derives them only where they are consumed. -/
def walkF (cl : CL) (hlp : Bool) (pfx : String) (path : List String)
    (looked : List String) (regs : List Reg) : Fields → WOut
  | .nil => ⟨looked, regs, .nil, none⟩
  | .cons nm tags (.sub sfs) rest =>
    match walkF cl hlp (childPfx nm pfx) (path ++ [nm]) looked regs sfs with
    | ⟨lk, rg, sfs2, some e⟩ => ⟨lk, rg, .cons nm tags (.sub sfs2) rest, some e⟩
    | ⟨lk, rg, sfs2, none⟩ =>
      let r := walkF cl hlp pfx path lk rg rest
      ⟨r.looked, r.regs, .cons nm tags (.sub sfs2) r.fields, r.err⟩
  | .cons nm tags (.term v) rest =>
    let fN := flagNameF nm tags pfx
    let eN := envVarNameF cl.name nm tags pfx
    let us := usageF nm tags eN pfx
    let lk := looked ++ [eN]
    match cl.lookupEnv eN with
    | some ev =>
      if hlp then
        match parseValue v fN tags.defv us (path ++ [nm]) with
        | .error e => ⟨lk, regs, .cons nm tags (.term v) rest, some (.fieldErr nm "def" e)⟩
        | .ok (v2, r) =>
          let rr := walkF cl hlp pfx path lk (regs ++ [r]) rest
          ⟨rr.looked, rr.regs, .cons nm tags (.term v2) rr.fields, rr.err⟩
      else
        match parseValue v fN ev us (path ++ [nm]) with
        | .error e => ⟨lk, regs, .cons nm tags (.term v) rest, some (.fieldErr nm "env" e)⟩
        | .ok (v2, r) =>
          let rr := walkF cl hlp pfx path lk (regs ++ [r]) rest
          ⟨rr.looked, rr.regs, .cons nm tags (.term v2) rr.fields, rr.err⟩
    | none =>
      match parseValue v fN tags.defv us (path ++ [nm]) with
      | .error e => ⟨lk, regs, .cons nm tags (.term v) rest, some (.fieldErr nm "def" e)⟩
      | .ok (v2, r) =>
        let rr := walkF cl hlp pfx path lk (regs ++ [r]) rest
        ⟨rr.looked, rr.regs, .cons nm tags (.term v2) rr.fields, rr.err⟩

/-! ### The final flag-registry parse (flag.FlagSet.Parse)

The flag set was created with flag.ContinueOnError, so its Parse
returns errors for the comandLine's own policy to handle.  Each
registered flag's Value.Set writes through the stored path; the text of
a failed Set is the flag package's converted error for the native
types, or the custom type's own error for Var registrations. -/

/-- flag.Value.Set of the value registered for a field, determined by
the field's type exactly as registration fixed it. -/
def setTermVal (v : TermVal) (s : String) : Except String TermVal :=
  match v with
  | .vBool _ =>
    match goParseBool s with
    | .ok b => .ok (.vBool b)
    | .error e => .error (numErrText e)
  | .vString _ => .ok (.vString s)
  | .vUint _ =>
    match goParseUint0 s with
    | .ok n => .ok (.vUint n)
    | .error e => .error (numErrText e)
  | .vUint64 _ =>
    match goParseUint0 s with
    | .ok n => .ok (.vUint64 n)
    | .error e => .error (numErrText e)
  | .vInt _ =>
    match goParseInt0 s with
    | .ok i => .ok (.vInt i)
    | .error e => .error (numErrText e)
  | .vInt64 _ =>
    match goParseInt0 s with
    | .ok i => .ok (.vInt64 i)
    | .error e => .error (numErrText e)
  | .vDuration _ =>
    match goParseDuration s with
    | .ok i => .ok (.vDuration i)
    | .error _ => .error "parse error"
  | .vURL _ =>
    match urlSet s with
    | .ok u => .ok (.vURL u)
    | .error e => .error (errMsg e)
  | .vTime _ =>
    match timeSet s with
    | .ok t => .ok (.vTime t)
    | .error e => .error (errMsg e)
  | .vStrSlice _ => .ok (.vStrSlice (strSliceSet s))
  | .vIntSlice _ =>
    match intSliceSet s with
    | .ok l => .ok (.vIntSlice l)
    | .error e => .error (errMsg e)
  | .vMap => .error "unsupported"

/-- Index of the first equals sign strictly after the first character
of a flag name, with the pieces around it (flag.Parse's name=value
split). -/
def splitEq (cs : List Char) : List Char × Option (List Char) :=
  match cs with
  | [] => ([], none)
  | c0 :: rest =>
    match rest.splitOn '=' with
    | [] => (cs, none)
    | [_] => (cs, none)
    | before :: after => (c0 :: before, some (List.intercalate ['='] after))

/-- Outcome of scanning one raw argument, per flag.parseOne: not a
flag token at all (or the bare terminator, both of which end the
parse), bad flag syntax, or a flag name with its optional =value. -/
inductive ScanResult
  | stop
  | bad
  | name (nm : String) (eqVal : Option String)
  deriving DecidableEq, Repr

/-- The scanning phase of flag.parseOne: minus counting, the bare
terminator of two minuses, the bad-syntax check, and the name=value
split.  Go's byte tests coincide with the character tests on the ASCII
arguments involved. -/
def scanFlag (s : String) : ScanResult :=
  let cs := s.toList
  if cs.length < 2 ∨ cs.head? ≠ some '-' then .stop
  else
    let afterOne := cs.tail
    if afterOne.head? = some '-' ∧ afterOne.tail = [] then .stop
    else
      let nameCs := if afterOne.head? = some '-' then afterOne.tail else afterOne
      if nameCs = [] ∨ nameCs.head? = some '-' ∨ nameCs.head? = some '=' then .bad
      else
        let (nmCs, eqVal) := splitEq nameCs
        .name (String.mk nmCs) (eqVal.map String.mk)

/-- flag.Value.Set through the registered pointer: read the field the
path stands for, run the type's Set on the text, write the result
back.  The none case of the lookup cannot arise for a registration the
walk produced. -/
def setAt (fs : Fields) (path : List String) (value : String) : Except String Fields :=
  match getF fs path with
  | none => .error "no value"
  | some v =>
    match setTermVal v value with
    | .error c => .error c
    | .ok v2 => .ok (setF fs path v2)

/-- flag.FlagSet.Parse's loop over flag.parseOne, specialised to a
registration list and a record tree standing for the pointers.  The
flag set was created with flag.ContinueOnError, so Parse returns
errors for the comandLine's own policy to handle.  A boolean flag
takes its =value or the literal true and consumes no argument; any
other flag takes its =value or the next argument. -/
def fsParse (regs : List Reg) : Fields → List String → Fields × Option BErr
  | fs, [] => (fs, none)
  | fs, s :: rest =>
    match scanFlag s with
    | .stop => (fs, none)
    | .bad => (fs, some (.badFlagSyn s))
    | .name name eqVal =>
      match regs.find? (fun r => r.name = name) with
      | none =>
        if name = "help" ∨ name = "h" then (fs, some .flagHelp)
        else (fs, some (.flagNotDefined name))
      | some r =>
        if r.isBool then
          match setAt fs r.path (eqVal.getD "true") with
          | .error c => (fs, some (.flagBadBool (eqVal.getD "true") name c))
          | .ok fs2 => fsParse regs fs2 rest
        else
          match eqVal with
          | some value =>
            match setAt fs r.path value with
            | .error c => (fs, some (.flagBadValue value name c))
            | .ok fs2 => fsParse regs fs2 rest
          | none =>
            match rest with
            | [] => (fs, some (.flagNeedsArg name))
            | value :: rest2 =>
              match setAt fs r.path value with
              | .error c => (fs, some (.flagBadValue value name c))
              | .ok fs2 => fsParse regs fs2 rest2

/-! ### Error/exit policy and the top-level parse -/

/-- Observable fate of one resolution call: return without error,
return an error, terminate the process with a code after possibly
printing to the output stream, or panic. -/
inductive Outcome
  | ok
  | err (e : BErr)
  | exited (code : Nat) (printed : Option String)
  | panicked (e : BErr)
  deriving DecidableEq, Repr

/-- comandLine.exit: nil passes through; continue-mode swallows the
help sentinel and returns other errors; exit-mode terminates with code
0 printing nothing when help was requested (help token scanned or help
error), else prints bee: error and terminates with code 2; panic-mode
panics. -/
def exitFn (eh : EH) (hlp : Bool) : Option BErr → Outcome
  | none => .ok
  | some e =>
    match eh with
    | .contOnErr => if isHelpErr e then .ok else .err e
    | .exitOnErr =>
      if hlp || isHelpErr e then .exited 0 none
      else .exited 2 (some ("bee: " ++ errMsg e ++ "\n"))
    | .panicOnErr => .panicked e

/-- The top-level argument as reflection sees it: a pointer to a
struct, a pointer to something else, or not a pointer at all. -/
inductive ConfigArg
  | ptr (fs : Fields)
  | ptrNonStruct
  | nonPtr

/-- Everything one call to comandLine.parse produces. -/
structure PResult where
  outcome : Outcome
  cfg : ConfigArg
  looked : List String
  regs : List Reg

/-- comandLine.parse: subParse walks the record (parseHelp first, then
the pointer-to-struct check, then the field loop); its error goes
through cl.exit, and only if the walk succeeded does the flag registry
parse the raw arguments, its error going through cl.exit as well. -/
def parseCL (cl : CL) (arg : ConfigArg) (flags : List String) : PResult :=
  let hlp := hasHelpToken flags
  match arg with
  | .ptr fs =>
    match walkF cl hlp "" [] [] [] fs with
    | ⟨lk, rg, fs2, some e⟩ => ⟨exitFn cl.errorHandling hlp (some e), .ptr fs2, lk, rg⟩
    | ⟨lk, rg, fs2, none⟩ =>
      match fsParse rg fs2 flags with
      | (fs3, fe) => ⟨exitFn cl.errorHandling hlp fe, .ptr fs3, lk, rg⟩
  | .ptrNonStruct =>
    ⟨exitFn cl.errorHandling hlp (some .invalidConfigType), .ptrNonStruct, [], []⟩
  | .nonPtr =>
    ⟨exitFn cl.errorHandling hlp (some .invalidConfigType), .nonPtr, [], []⟩

/-! ### Observers and sample records used by the statements -/

/-- The field tree inside a pointer argument (empty for non-records). -/
def cfgFields : ConfigArg → Fields
  | .ptr fs => fs
  | _ => .nil

/-- The kind's zero value, as each registration branch writes it for
empty source text. -/
def zeroOf : TermVal → TermVal
  | .vBool _ => .vBool false
  | .vString _ => .vString ""
  | .vUint _ => .vUint 0
  | .vUint64 _ => .vUint64 0
  | .vInt _ => .vInt 0
  | .vInt64 _ => .vInt64 0
  | .vDuration _ => .vDuration 0
  | .vURL _ => .vURL ⟨""⟩
  | .vTime _ => .vTime ⟨""⟩
  | .vStrSlice _ => .vStrSlice []
  | .vIntSlice _ => .vIntSlice []
  | .vMap => .vMap

/-- Whether the kind registers as a boolean flag. -/
def isBoolKind : TermVal → Bool
  | .vBool _ => true
  | _ => false

/-- The one-field record of the spec's scenarios: Port int with a def
tag. -/
def cfgPort (d : String) : Fields :=
  .cons "Port" (defTag d) (.term (.vInt 0)) .nil

/-- An environment map holding exactly one binding. -/
def envOne (key val : String) : String → Option String :=
  fun n => if n = key then some val else none

/-- The empty environment. -/
def envNone : String → Option String := fun _ => none

/-- Concatenation of two field lists, for stating walk properties about
a field at an arbitrary position in its record. -/
def appendF : Fields → Fields → Fields
  | .nil, fs2 => fs2
  | .cons nm tags nd rest, fs2 => .cons nm tags nd (appendF rest fs2)

/-- The source text a terminal field is coerced from, with its phase
tag: the environment value when the lookup succeeds and no help token
was seen, else the declared default — the env-over-default leg of the
precedence chain, read off subParse's branch structure. -/
def selectSrc (cl : CL) (hlp : Bool) (eN defv : String) : String × String :=
  match cl.lookupEnv eN with
  | some ev => if hlp then (defv, "def") else (ev, "env")
  | none => (defv, "def")

lemma selectSrc_phase (cl : CL) (hlp : Bool) (eN defv : String) :
    (selectSrc cl hlp eN defv).2 = "env" ∨ (selectSrc cl hlp eN defv).2 = "def" := by
  unfold selectSrc
  rcases cl.lookupEnv eN with _ | ev
  · exact Or.inr rfl
  · cases hlp <;> simp

/- One unfolding of the walk at a terminal field at the head of the
remaining field list: the field's names are derived, the environment
name is looked up, the selected source text (selectSrc) is coerced; a
failure wraps field name and phase and stops, a success binds the new
value and registration and continues with the rest. -/
lemma walk_cons_term (cl : CL) (hlp : Bool) (pfx : String) (path lk : List String)
    (rg : List Reg) (nm : String) (tags : Tags) (v : TermVal) (suf : Fields) :
    walkF cl hlp pfx path lk rg (.cons nm tags (.term v) suf) =
      (match parseValue v (flagNameF nm tags pfx)
          (selectSrc cl hlp (envVarNameF cl.name nm tags pfx) tags.defv).1
          (usageF nm tags (envVarNameF cl.name nm tags pfx) pfx) (path ++ [nm]) with
       | .error e =>
         ⟨lk ++ [envVarNameF cl.name nm tags pfx], rg, .cons nm tags (.term v) suf,
          some (.fieldErr nm
            (selectSrc cl hlp (envVarNameF cl.name nm tags pfx) tags.defv).2 e)⟩
       | .ok (v2, r) =>
         let rr := walkF cl hlp pfx path (lk ++ [envVarNameF cl.name nm tags pfx])
           (rg ++ [r]) suf
         ⟨rr.looked, rr.regs, .cons nm tags (.term v2) rr.fields, rr.err⟩) := by
  rcases henv : cl.lookupEnv (envVarNameF cl.name nm tags pfx) with _ | ev
  · simp only [walkF, selectSrc, henv]
  · cases hlp with
    | true => simp only [walkF, selectSrc, henv]; rfl
    | false => simp only [walkF, selectSrc, henv]; rfl

/- The walk of a concatenation: the first error in the left part stops
the whole walk, leaving the right part untouched; otherwise the walk
continues into the right part with the accumulated lookups and
registrations, the mutated left part kept in place. -/
def walk_append (cl : CL) (hlp : Bool) (pfx : String) (path : List String) :
    ∀ (fs1 fs2 : Fields) (lk : List String) (rg : List Reg),
      walkF cl hlp pfx path lk rg (appendF fs1 fs2) =
        (match walkF cl hlp pfx path lk rg fs1 with
         | ⟨lk1, rg1, fs1b, some e⟩ => ⟨lk1, rg1, appendF fs1b fs2, some e⟩
         | ⟨lk1, rg1, fs1b, none⟩ =>
           let r2 := walkF cl hlp pfx path lk1 rg1 fs2
           ⟨r2.looked, r2.regs, appendF fs1b r2.fields, r2.err⟩)
  | .nil, fs2, lk, rg => by
    simp only [appendF, walkF]
  | .cons nm tags (.sub sfs) rest, fs2, lk, rg => by
    simp only [appendF, walkF]
    rcases hres : walkF cl hlp (childPfx nm pfx) (path ++ [nm]) lk rg sfs with
      ⟨lk2, rg2, sfs2, oe⟩
    cases oe with
    | some e => rfl
    | none =>
      dsimp only
      rw [walk_append cl hlp pfx path rest fs2 lk2 rg2]
      rcases hrest : walkF cl hlp pfx path lk2 rg2 rest with ⟨lk3, rg3, rest3, oe3⟩
      cases oe3 with
      | some e3 => rfl
      | none => rfl
  | .cons nm tags (.term v) rest, fs2, lk, rg => by
    simp only [appendF]
    rw [walk_cons_term cl hlp pfx path lk rg nm tags v (appendF rest fs2),
      walk_cons_term cl hlp pfx path lk rg nm tags v rest]
    rcases parseValue v (flagNameF nm tags pfx)
        (selectSrc cl hlp (envVarNameF cl.name nm tags pfx) tags.defv).1
        (usageF nm tags (envVarNameF cl.name nm tags pfx) pfx) (path ++ [nm]) with
      e | ⟨v2, r⟩
    · rfl
    · dsimp only
      rw [walk_append cl hlp pfx path rest fs2
        (lk ++ [envVarNameF cl.name nm tags pfx]) (rg ++ [r])]
      rcases hrest : walkF cl hlp pfx path (lk ++ [envVarNameF cl.name nm tags pfx])
          (rg ++ [r]) rest with ⟨lk3, rg3, rest3, oe3⟩
      cases oe3 with
      | some e3 => rfl
      | none => rfl

/- Whether a node contains a terminal field of the unsupported map
kind, at any depth. -/
mutual
def containsMapN : Node → Bool
  | .term v => match v with | .vMap => true | _ => false
  | .sub fs => containsMapF fs

def containsMapF : Fields → Bool
  | .nil => false
  | .cons _ _ nd rest => containsMapN nd || containsMapF rest
end

/- The walk of a record decomposed around one terminal field, when
everything before that field resolves cleanly: the field is resolved
from its selected source (environment over default), a coercion
failure stops the walk right there with the earlier mutations kept and
the suffix untouched, and a success binds the coerced value and
registration and continues into the suffix. -/
lemma walk_split (cl : CL) (hlp : Bool) (pfx : String) (path lk : List String)
    (rg : List Reg) (pre : Fields) (nm : String) (tags : Tags) (v : TermVal) (suf : Fields)
    (hpre : (walkF cl hlp pfx path lk rg pre).err = none) :
    walkF cl hlp pfx path lk rg (appendF pre (.cons nm tags (.term v) suf)) =
      (match parseValue v (flagNameF nm tags pfx)
          (selectSrc cl hlp (envVarNameF cl.name nm tags pfx) tags.defv).1
          (usageF nm tags (envVarNameF cl.name nm tags pfx) pfx) (path ++ [nm]) with
       | .error e =>
         ⟨(walkF cl hlp pfx path lk rg pre).looked ++ [envVarNameF cl.name nm tags pfx],
          (walkF cl hlp pfx path lk rg pre).regs,
          appendF (walkF cl hlp pfx path lk rg pre).fields (.cons nm tags (.term v) suf),
          some (.fieldErr nm
            (selectSrc cl hlp (envVarNameF cl.name nm tags pfx) tags.defv).2 e)⟩
       | .ok (v2, r) =>
         let rr := walkF cl hlp pfx path
           ((walkF cl hlp pfx path lk rg pre).looked ++ [envVarNameF cl.name nm tags pfx])
           ((walkF cl hlp pfx path lk rg pre).regs ++ [r]) suf
         ⟨rr.looked, rr.regs,
          appendF (walkF cl hlp pfx path lk rg pre).fields
            (.cons nm tags (.term v2) rr.fields),
          rr.err⟩) := by
  rw [walk_append]
  rcases hp : walkF cl hlp pfx path lk rg pre with ⟨lk1, rg1, fs1, oe⟩
  rw [hp] at hpre
  dsimp only at hpre
  subst hpre
  dsimp only
  rw [walk_cons_term]
  rcases parseValue v (flagNameF nm tags pfx)
      (selectSrc cl hlp (envVarNameF cl.name nm tags pfx) tags.defv).1
      (usageF nm tags (envVarNameF cl.name nm tags pfx) pfx) (path ++ [nm]) with
    e | ⟨v2, r⟩
  · rfl
  · rfl

/- Any record containing a map-kinded terminal field anywhere makes
the walk fail: either an earlier field already fails, or the walk
reaches the map field, whose coercion fails on every source text. -/
def walk_contains_err (cl : CL) (hlp : Bool) :
    ∀ (fs : Fields) (pfx : String) (path lk : List String) (rg : List Reg),
      containsMapF fs = true → (walkF cl hlp pfx path lk rg fs).err ≠ none
  | .nil, _, _, _, _ => by
    intro h
    simp [containsMapF] at h
  | .cons nm tags (.sub sfs) rest, pfx, path, lk, rg => by
    intro h hcon
    simp only [containsMapF, containsMapN, Bool.or_eq_true] at h
    rcases hres : walkF cl hlp (childPfx nm pfx) (path ++ [nm]) lk rg sfs with
      ⟨lk2, rg2, sfs2, oe⟩
    simp only [walkF, hres] at hcon
    cases oe with
    | some e => exact Option.noConfusion hcon
    | none =>
      dsimp only at hcon
      rcases h with hs | hr
      · have hne := walk_contains_err cl hlp sfs (childPfx nm pfx) (path ++ [nm]) lk rg hs
        rw [hres] at hne
        exact hne rfl
      · exact walk_contains_err cl hlp rest pfx path lk2 rg2 hr hcon
  | .cons nm tags (.term v) rest, pfx, path, lk, rg => by
    intro h hcon
    rw [walk_cons_term] at hcon
    rcases hpv : parseValue v (flagNameF nm tags pfx)
        (selectSrc cl hlp (envVarNameF cl.name nm tags pfx) tags.defv).1
        (usageF nm tags (envVarNameF cl.name nm tags pfx) pfx) (path ++ [nm]) with
      e | ⟨v2, r⟩
    · rw [hpv] at hcon
      exact Option.noConfusion hcon
    · rw [hpv] at hcon
      dsimp only at hcon
      by_cases hv : v = .vMap
      · subst hv
        exact Except.noConfusion hpv
      · have hterm : containsMapN (.term v) = false := by
          cases v <;> simp [containsMapN] at hv ⊢
        simp only [containsMapF, hterm, Bool.false_or] at h
        exact walk_contains_err cl hlp rest pfx path
          (lk ++ [envVarNameF cl.name nm tags pfx]) (rg ++ [r]) h hcon

/- One step of the final flag parse at a non-boolean registered flag
supplied without an equals sign: the next argument is consumed as the
value and written through the registered path, overriding whatever the
walk established there. -/
lemma fsParse_override_nonbool (regs : List Reg) (fs fs2 : Fields) (r : Reg)
    (tok a : String) (rest : List String)
    (hscan : scanFlag tok = .name r.name none)
    (hfind : regs.find? (fun q => q.name = r.name) = some r)
    (hb : r.isBool = false)
    (hset : setAt fs r.path a = .ok fs2) :
    fsParse regs fs (tok :: a :: rest) = fsParse regs fs2 rest := by
  rw [fsParse.eq_2, hscan]
  dsimp only
  rw [hfind]
  dsimp only
  rw [hb]
  simp only [Bool.false_eq_true, if_false]
  rw [hset]

/- One step of the final flag parse at a boolean registered flag: the
value is the text after the equals sign or the literal true, no
argument is consumed, and the result is written through the registered
path. -/
lemma fsParse_override_bool (regs : List Reg) (fs fs2 : Fields) (r : Reg)
    (tok : String) (eqv : Option String) (rest : List String)
    (hscan : scanFlag tok = .name r.name eqv)
    (hfind : regs.find? (fun q => q.name = r.name) = some r)
    (hb : r.isBool = true)
    (hset : setAt fs r.path (eqv.getD "true") = .ok fs2) :
    fsParse regs fs (tok :: rest) = fsParse regs fs2 rest := by
  rw [fsParse.eq_2, hscan]
  dsimp only
  rw [hfind]
  dsimp only
  rw [hb]
  simp only [if_true]
  rw [hset]

/-! ## Claims -/

/- Empty source text registers the kind's zero value with no error,
for every kind in the dispatch table. -/
lemma parseValue_empty (v : TermVal) (fN us : String) (path : List String)
    (h : v ≠ .vMap) :
    parseValue v fN "" us path = .ok (zeroOf v, ⟨fN, path, isBoolKind v, us⟩) := by
  cases v <;>
    simp [parseValue, parseBoolF, parseUintF, parseUint64F, parseIntF, parseInt64F,
      parseDurationF, parseURLF, parseTimeF, parseStrSliceF, parseIntSliceF,
      zeroOf, isBoolKind] at h ⊢

/-- C2: for every terminal field of a kind in the dispatch table, empty
source text (from the environment or the default tag) registers the
kind's zero value — empty list for the two list kinds — and returns no
error, the per-kind text parser never being consulted. -/
theorem bee_C2 (v : TermVal) (fN us : String) (path : List String)
    (h : v ≠ .vMap) :
    parseValue v fN "" us path = .ok (zeroOf v, ⟨fN, path, isBoolKind v, us⟩) :=
  parseValue_empty v fN us path h

/-- Witness for C2 at the int kind. -/
theorem bee_C2_witness :
    parseValue (.vInt 5) "port" "" "u" ["Port"] =
      .ok (.vInt 0, ⟨"port", ["Port"], false, "u"⟩) :=
  bee_C2 (.vInt 5) "port" "u" ["Port"] (by decide)

/-- C10: a string-list terminal field never produces a parse error for
any source text: parseStringSlice discards the Set error result, so the
field is bound to whatever the comma split produced. -/
theorem bee_C10 (l0 : List String) (value fN us : String) (path : List String) :
    parseValue (.vStrSlice l0) fN value us path =
      .ok (.vStrSlice (if value = "" then [] else strSliceSet value),
        ⟨fN, path, false, us⟩) := by
  by_cases h : value = "" <;> simp [parseValue, parseStrSliceF, h]

/-- C6: an argument that is not a pointer to a record fails with
ErrInvalidConfigType before any traversal: no field visited, no
environment lookup, no flag registered, the argument untouched. -/
theorem bee_C6 (arg : ConfigArg) (flags : List String) (nm : String)
    (env : String → Option String) (h : ∀ fs, arg ≠ .ptr fs) :
    parseCL ⟨nm, env, .contOnErr⟩ arg flags =
      ⟨.err .invalidConfigType, arg, [], []⟩ := by
  cases arg with
  | ptr fs => exact absurd rfl (h fs)
  | ptrNonStruct => rfl
  | nonPtr => rfl

/-- Witness for C6 at a non-pointer argument. -/
theorem bee_C6_witness :
    parseCL ⟨"cool", envNone, .contOnErr⟩ .nonPtr ["-x"] =
      ⟨.err .invalidConfigType, .nonPtr, [], []⟩ :=
  bee_C6 .nonPtr ["-x"] "cool" envNone (fun _ h => ConfigArg.noConfusion h)

/-- A record with an int field before and after a map-kinded field; the
trailing field starts at a sentinel value to witness non-mutation. -/
def mapRecord : Fields :=
  .cons "A" (defTag "1") (.term (.vInt 0))
    (.cons "B" noTags (.term .vMap)
      (.cons "C" (defTag "2") (.term (.vInt 7)) .nil))

/-- C5: every record containing a terminal field of a kind outside the
coercion dispatch table (at any depth, under any environment, help
state, prefix and position) makes the walk fail; when the fields
before the offending one resolve cleanly, the failure is exactly the
UnsupportedType error naming the kind, wrapped with the field name and
an env-or-def phase, the earlier fields keeping their resolved values
and the later ones left untouched and unregistered — no rollback;
concretely, on the A/B/C record the walk fails at B with kind map,
A already holds its default 1 and C still holds its sentinel 7. -/
theorem bee_C5 :
    (∀ (cl : CL) (hlp : Bool) (fs : Fields) (pfx : String) (path lk : List String)
        (rg : List Reg), containsMapF fs = true →
      (walkF cl hlp pfx path lk rg fs).err ≠ none) ∧
    (∀ (cl : CL) (hlp : Bool) (pfx : String) (path lk : List String) (rg : List Reg)
        (pre : Fields) (nm : String) (tags : Tags) (suf : Fields),
      (walkF cl hlp pfx path lk rg pre).err = none →
      ((selectSrc cl hlp (envVarNameF cl.name nm tags pfx) tags.defv).2 = "env" ∨
        (selectSrc cl hlp (envVarNameF cl.name nm tags pfx) tags.defv).2 = "def") ∧
      walkF cl hlp pfx path lk rg (appendF pre (.cons nm tags (.term .vMap) suf)) =
        ⟨(walkF cl hlp pfx path lk rg pre).looked ++ [envVarNameF cl.name nm tags pfx],
         (walkF cl hlp pfx path lk rg pre).regs,
         appendF (walkF cl hlp pfx path lk rg pre).fields
           (.cons nm tags (.term .vMap) suf),
         some (.fieldErr nm
           (selectSrc cl hlp (envVarNameF cl.name nm tags pfx) tags.defv).2
           (.unsupported .kMap))⟩) ∧
    (parseCL ⟨"cool", envNone, .contOnErr⟩ (.ptr mapRecord) []).outcome =
      .err (.fieldErr "B" "def" (.unsupported .kMap)) ∧
    isUnsupportedErr (.fieldErr "B" "def" (.unsupported .kMap)) = true ∧
    getF (cfgFields (parseCL ⟨"cool", envNone, .contOnErr⟩ (.ptr mapRecord) []).cfg)
      ["A"] = some (.vInt 1) ∧
    getF (cfgFields (parseCL ⟨"cool", envNone, .contOnErr⟩ (.ptr mapRecord) []).cfg)
      ["C"] = some (.vInt 7) ∧
    (parseCL ⟨"cool", envNone, .contOnErr⟩ (.ptr mapRecord) []).looked =
      ["COOL_A", "COOL_B"] := by
  refine ⟨?_, ?_, rfl, rfl, rfl, rfl, rfl⟩
  · exact fun cl hlp fs pfx path lk rg h => walk_contains_err cl hlp fs pfx path lk rg h
  · intro cl hlp pfx path lk rg pre nm tags suf hpre
    refine ⟨selectSrc_phase cl hlp (envVarNameF cl.name nm tags pfx) tags.defv, ?_⟩
    rw [walk_split cl hlp pfx path lk rg pre nm tags .vMap suf hpre]
    rfl

/-- Witness for C5's universal parts: the A/B/C record contains the
map field and indeed fails, and with the cleanly-resolving prefix A
the failure is the wrapped UnsupportedType error. -/
theorem bee_C5_witness :
    ((walkF ⟨"cool", envNone, .contOnErr⟩ false "" [] [] [] mapRecord).err ≠ none) ∧
    (((selectSrc ⟨"cool", envNone, .contOnErr⟩ false "COOL_B" "").2 = "env" ∨
       (selectSrc ⟨"cool", envNone, .contOnErr⟩ false "COOL_B" "").2 = "def") ∧
      walkF ⟨"cool", envNone, .contOnErr⟩ false "" [] [] []
          (appendF (.cons "A" (defTag "1") (.term (.vInt 0)) .nil)
            (.cons "B" noTags (.term .vMap)
              (.cons "C" (defTag "2") (.term (.vInt 7)) .nil))) =
        ⟨(walkF ⟨"cool", envNone, .contOnErr⟩ false "" [] [] []
            (.cons "A" (defTag "1") (.term (.vInt 0)) .nil)).looked ++ ["COOL_B"],
         (walkF ⟨"cool", envNone, .contOnErr⟩ false "" [] [] []
            (.cons "A" (defTag "1") (.term (.vInt 0)) .nil)).regs,
         appendF (walkF ⟨"cool", envNone, .contOnErr⟩ false "" [] [] []
            (.cons "A" (defTag "1") (.term (.vInt 0)) .nil)).fields
           (.cons "B" noTags (.term .vMap)
             (.cons "C" (defTag "2") (.term (.vInt 7)) .nil)),
         some (.fieldErr "B"
           (selectSrc ⟨"cool", envNone, .contOnErr⟩ false "COOL_B" "").2
           (.unsupported .kMap))⟩) :=
  ⟨bee_C5.1 ⟨"cool", envNone, .contOnErr⟩ false mapRecord "" [] [] [] rfl,
   bee_C5.2.1 ⟨"cool", envNone, .contOnErr⟩ false "" [] [] []
     (.cons "A" (defTag "1") (.term (.vInt 0)) .nil) "B" noTags
     (.cons "C" (defTag "2") (.term (.vInt 7)) .nil) rfl⟩

/-- The spec's nested record DB.Postgres.Host as a field tree. -/
def nestedRecord : Fields :=
  .cons "DB" noTags
    (.sub (.cons "Postgres" noTags
      (.sub (.cons "Host" noTags (.term (.vString "")) .nil)) .nil)) .nil

/-- Spec-side dash join of a prefix chain. -/
def dashJoin : List String → String
  | [] => ""
  | [x] => x
  | x :: rest => x ++ "-" ++ dashJoin rest

/-- The prefix the walk carries at depth given by a chain of ancestor
field names, built by newPrefix one level at a time. -/
def buildPfx (chain : List String) : String :=
  chain.foldl (fun p nmi => childPfx nmi p) ""

lemma dash_append_ne_empty (a b : String) : a ++ "-" ++ b ≠ "" := by
  intro h
  have hl := congrArg String.length h
  simp [String.length_append] at hl
  exact absurd hl.1.2 (by decide)

lemma foldl_childPfx (rest : List String) :
    ∀ p : String, p ≠ "" →
      rest.foldl (fun q nmi => childPfx nmi q) p = dashJoin (p :: rest) := by
  induction rest with
  | nil => intro p _; rfl
  | cons r rest ih =>
    intro p hp
    have hstep : childPfx r p = p ++ "-" ++ r := by simp [childPfx, hp]
    calc ((r :: rest).foldl (fun q nmi => childPfx nmi q) p)
        = rest.foldl (fun q nmi => childPfx nmi q) (p ++ "-" ++ r) := by
          rw [List.foldl_cons, hstep]
      _ = dashJoin ((p ++ "-" ++ r) :: rest) := ih (p ++ "-" ++ r) (dash_append_ne_empty p r)
      _ = dashJoin (p :: r :: rest) := by
          cases rest with
          | nil => rfl
          | cons s rest2 => simp [dashJoin, String.append_assoc]

/-- The walk's incrementally built prefix equals the dash join of the
ancestor chain. -/
lemma buildPfx_eq_dashJoin (chain : List String) (h : chain ≠ [])
    (hc : ∀ x ∈ chain, x ≠ "") : buildPfx chain = dashJoin chain := by
  cases chain with
  | nil => exact absurd rfl h
  | cons x rest =>
    have hx : x ≠ "" := hc x (List.mem_cons_self x rest)
    have hfold : buildPfx (x :: rest) = rest.foldl (fun q nmi => childPfx nmi q) x := by
      simp [buildPfx, List.foldl_cons, childPfx]
    rw [hfold, foldl_childPfx rest x hx]

lemma dashJoin_snoc (chain : List String) (nm : String) (h : chain ≠ []) :
    dashJoin (chain ++ [nm]) = dashJoin chain ++ "-" ++ nm := by
  induction chain with
  | nil => exact absurd rfl h
  | cons x rest ih =>
    cases rest with
    | nil => rfl
    | cons y rest2 =>
      have hr : (y :: rest2) ≠ ([] : List String) := by simp
      have : dashJoin ((x :: y :: rest2) ++ [nm]) =
          x ++ "-" ++ dashJoin ((y :: rest2) ++ [nm]) := by
        simp [dashJoin]
      rw [this, ih hr]
      have h2 : dashJoin (x :: y :: rest2) = x ++ "-" ++ dashJoin (y :: rest2) := by
        simp [dashJoin]
      rw [h2]
      simp [String.append_assoc]

lemma dashJoin_ne_empty (chain : List String) (h : chain ≠ [])
    (hc : ∀ x ∈ chain, x ≠ "") : dashJoin chain ≠ "" := by
  cases chain with
  | nil => exact absurd rfl h
  | cons x rest =>
    cases rest with
    | nil => exact hc x (List.mem_cons_self x [])
    | cons y rest2 =>
      have : dashJoin (x :: y :: rest2) = x ++ "-" ++ dashJoin (y :: rest2) := by
        simp [dashJoin]
      rw [this]
      exact dash_append_ne_empty x (dashJoin (y :: rest2))

/-- C4: a terminal field without naming overrides derives its flag name
as the kebab case of the dash-joined prefix chain plus field name (the
walk's prefix being exactly that dash join), and its env name as the
screaming snake case of command, prefix and field name; for
DB.Postgres.Host under command mycmd the full walk looks up exactly
MYCMD_DB_POSTGRES_HOST and registers exactly db-postgres-host. -/
theorem bee_C4 :
    (∀ (chain : List String) (nm : String), chain ≠ [] → (∀ x ∈ chain, x ≠ "") →
      flagNameF nm noTags (buildPfx chain) = toKebab (dashJoin (chain ++ [nm])) ∧
      envVarNameF "mycmd" nm noTags (buildPfx chain) =
        toScreamingSnake ("mycmd" ++ "_" ++ dashJoin chain ++ "_" ++ nm)) ∧
    (parseCL ⟨"mycmd", envNone, .contOnErr⟩ (.ptr nestedRecord) []).looked =
      ["MYCMD_DB_POSTGRES_HOST"] ∧
    ((parseCL ⟨"mycmd", envNone, .contOnErr⟩ (.ptr nestedRecord) []).regs.map Reg.name) =
      ["db-postgres-host"] := by
  refine ⟨?_, rfl, rfl⟩
  intro chain nm hne hc
  rw [buildPfx_eq_dashJoin chain hne hc, dashJoin_snoc chain nm hne]
  have hpe : dashJoin chain ≠ "" := dashJoin_ne_empty chain hne hc
  constructor
  · simp [flagNameF, noTags, hpe]
  · simp [envVarNameF, noTags, hpe]

/-- Witness for C4's general conjunct at the chain DB, Postgres with
field Host. -/
theorem bee_C4_witness :
    flagNameF "Host" noTags (buildPfx ["DB", "Postgres"]) =
      toKebab (dashJoin (["DB", "Postgres"] ++ ["Host"])) :=
  (bee_C4.1 ["DB", "Postgres"] "Host" (by decide) (by decide)).1

/-- Counterexample to C8 as stated: a help request under exit mode
terminates with exit code 0, not with the fixed non-zero code 2 — the
source runs os.Exit(0) when cl.help is set or the error is
flag.ErrHelp. -/
theorem bee_C8_cex :
    (parseCL ⟨"cool", envNone, .exitOnErr⟩ (.ptr (cfgPort "3000")) ["--help"]).outcome =
      .exited 0 none ∧
    Outcome.exited 0 none ≠ .exited 2 none := by
  exact ⟨rfl, by decide⟩

lemma exitFn_exit_cases (hlp : Bool) (oe : Option BErr) :
    exitFn .exitOnErr hlp oe = .ok ∨
    (exitFn .exitOnErr hlp oe = .exited 0 none ∧
      (hlp = true ∨ ∃ e, oe = some e ∧ isHelpErr e = true)) ∨
    (∃ e, oe = some e ∧
      exitFn .exitOnErr hlp oe = .exited 2 (some ("bee: " ++ errMsg e ++ "\n")) ∧
      isHelpErr e = false ∧ hlp = false) := by
  cases oe with
  | none => exact Or.inl rfl
  | some e =>
    by_cases hh : hlp = true
    · exact Or.inr (Or.inl ⟨by simp [exitFn, hh], Or.inl hh⟩)
    · by_cases he : isHelpErr e = true
      · exact Or.inr (Or.inl ⟨by simp [exitFn, he], Or.inr ⟨e, rfl, he⟩⟩)
      · refine Or.inr (Or.inr ⟨e, rfl, ?_, by simpa using he, by simpa using hh⟩)
        simp only [Bool.not_eq_true] at hh he
        simp [exitFn, hh, he]

/-- C8 as amended: under exit mode an error terminates the process
with exit code 0 and nothing printed when the help flag was scanned or
the error is the help sentinel, and otherwise with exit code 2 after
printing the bee-prefixed error text; consequently a full resolution
call either returns without error, exits 0 silently, or exits 2
printing the causing error — the code-2 exit only without a help
request — and with a help token in the arguments the process never
exits with the non-zero code. -/
theorem bee_C8 (fs : Fields) (flags : List String) (nm : String)
    (env : String → Option String) :
    (∀ (hlp : Bool) (e : BErr),
      exitFn .exitOnErr hlp (some e) =
        if hlp || isHelpErr e then .exited 0 none
        else .exited 2 (some ("bee: " ++ errMsg e ++ "\n"))) ∧
    ((parseCL ⟨nm, env, .exitOnErr⟩ (.ptr fs) flags).outcome = .ok ∨
      (parseCL ⟨nm, env, .exitOnErr⟩ (.ptr fs) flags).outcome = .exited 0 none ∨
      (∃ e, (parseCL ⟨nm, env, .exitOnErr⟩ (.ptr fs) flags).outcome =
          .exited 2 (some ("bee: " ++ errMsg e ++ "\n")) ∧
        isHelpErr e = false ∧ hasHelpToken flags = false)) ∧
    (hasHelpToken flags = true →
      (parseCL ⟨nm, env, .exitOnErr⟩ (.ptr fs) flags).outcome = .ok ∨
      (parseCL ⟨nm, env, .exitOnErr⟩ (.ptr fs) flags).outcome = .exited 0 none) := by
  have hmain :
      (parseCL ⟨nm, env, .exitOnErr⟩ (.ptr fs) flags).outcome = .ok ∨
      (parseCL ⟨nm, env, .exitOnErr⟩ (.ptr fs) flags).outcome = .exited 0 none ∨
      (∃ e, (parseCL ⟨nm, env, .exitOnErr⟩ (.ptr fs) flags).outcome =
          .exited 2 (some ("bee: " ++ errMsg e ++ "\n")) ∧
        isHelpErr e = false ∧ hasHelpToken flags = false) := by
    simp only [parseCL]
    rcases hw : walkF ⟨nm, env, .exitOnErr⟩ (hasHelpToken flags) "" [] [] [] fs with
      ⟨lk, rg, fs2, oe⟩
    cases oe with
    | some e =>
      dsimp only
      rcases exitFn_exit_cases (hasHelpToken flags) (some e) with
        h | ⟨h1, h2⟩ | ⟨e2, he2, h1, h2, h3⟩
      · exact Or.inl h
      · exact Or.inr (Or.inl h1)
      · cases Option.some.inj he2
        exact Or.inr (Or.inr ⟨e, h1, h2, h3⟩)
    | none =>
      dsimp only
      rcases hf : fsParse rg fs2 flags with ⟨fs3, fe⟩
      cases fe with
      | none => exact Or.inl rfl
      | some e =>
        dsimp only
        rcases exitFn_exit_cases (hasHelpToken flags) (some e) with
          h | ⟨h1, h2⟩ | ⟨e2, he2, h1, h2, h3⟩
        · exact Or.inl h
        · exact Or.inr (Or.inl h1)
        · cases Option.some.inj he2
          exact Or.inr (Or.inr ⟨e, h1, h2, h3⟩)
  refine ⟨fun hlp e => rfl, hmain, ?_⟩
  intro hh
  rcases hmain with h | h | ⟨e, _, _, hfalse⟩
  · exact Or.inl h
  · exact Or.inr h
  · rw [hh] at hfalse
    exact absurd hfalse (by decide)

/-- Witness for C8's help-token conjunct at the Port record. -/
theorem bee_C8_witness :
    (parseCL ⟨"cool", envNone, .exitOnErr⟩ (.ptr (cfgPort "3000")) ["--help"]).outcome = .ok ∨
    (parseCL ⟨"cool", envNone, .exitOnErr⟩ (.ptr (cfgPort "3000")) ["--help"]).outcome =
      .exited 0 none :=
  (bee_C8 (cfgPort "3000") ["--help"] "cool" envNone).2.2 (by decide)

/- When a help token was scanned, the walk ignores everything the
environment-lookup function returns: with hlp true the term case takes
the default path whether or not the lookup succeeds, so two arbitrary
lookup functions produce identical walks (same lookups performed, same
registrations, same mutations, same error). -/
def walkEnvBlind (nm : String) (e1 e2 : String → Option String) (eh1 eh2 : EH) :
    ∀ (fs : Fields) (pfx : String) (path lk : List String) (rg : List Reg),
      walkF ⟨nm, e1, eh1⟩ true pfx path lk rg fs = walkF ⟨nm, e2, eh2⟩ true pfx path lk rg fs
  | .nil, _, _, _, _ => rfl
  | .cons nmf tags (.sub sfs) rest, pfx, path, lk, rg => by
    have h1 := walkEnvBlind nm e1 e2 eh1 eh2 sfs (childPfx nmf pfx) (path ++ [nmf]) lk rg
    simp only [walkF, h1]
    rcases hres : walkF ⟨nm, e2, eh2⟩ true (childPfx nmf pfx) (path ++ [nmf]) lk rg sfs with
      ⟨lk2, rg2, sfs2, oe⟩
    cases oe with
    | some e => rfl
    | none =>
      have h2 := walkEnvBlind nm e1 e2 eh1 eh2 rest pfx path lk2 rg2
      simp only [h2]
  | .cons nmf tags (.term v) rest, pfx, path, lk, rg => by
    simp only [walkF]
    cases e1 (envVarNameF nm nmf tags pfx) <;> cases e2 (envVarNameF nm nmf tags pfx) <;>
      simp only [if_true] <;>
      rcases parseValue v (flagNameF nmf tags pfx) tags.defv
        (usageF nmf tags (envVarNameF nm nmf tags pfx) pfx) (path ++ [nmf]) with e | ⟨v2, r⟩ <;>
      dsimp only <;>
      first
        | rfl
        | rw [walkEnvBlind nm e1 e2 eh1 eh2 rest pfx path
            (lk ++ [envVarNameF nm nmf tags pfx]) (rg ++ [r])]

/-- Counterexample to C3 as stated: with a help token present the code
still invokes the environment-lookup function for each terminal field
(the lookup at the top of the terminal branch is unconditional; only
its result is discarded), and resolution can still return an error when
a declared default fails to coerce. -/
theorem bee_C3_cex :
    (parseCL ⟨"cool", envOne "COOL_PORT" "1", .contOnErr⟩
        (.ptr (cfgPort "abc")) ["--help"]).looked = ["COOL_PORT"] ∧
    (parseCL ⟨"cool", envOne "COOL_PORT" "1", .contOnErr⟩
        (.ptr (cfgPort "abc")) ["--help"]).looked ≠ [] ∧
    (parseCL ⟨"cool", envOne "COOL_PORT" "1", .contOnErr⟩
        (.ptr (cfgPort "abc")) ["--help"]).outcome =
      .err (.fieldErr "Port" "def" (.parseErr "int" "abc" (sErrMsg ⟨"Atoi", "abc", false⟩))) ∧
    (parseCL ⟨"cool", envOne "COOL_PORT" "1", .contOnErr⟩
        (.ptr (cfgPort "abc")) ["--help"]).outcome ≠ .ok := by
  refine ⟨rfl, by decide, rfl, by decide⟩

/-- C3 as amended: under continue-mode, an argument list containing a
help token makes the outcome independent of the environment-lookup
function — the whole result (outcome, mutated record, lookups
performed, registrations) is the same for any two lookup functions, so
every terminal field resolves via its declared default path; the
lookup function is still invoked once per terminal field, and errors
from default coercion or from the final flag parse are still
returned. -/
theorem bee_C3 (arg : ConfigArg) (flags : List String) (nm : String)
    (e1 e2 : String → Option String) (h : hasHelpToken flags = true) :
    parseCL ⟨nm, e1, .contOnErr⟩ arg flags = parseCL ⟨nm, e2, .contOnErr⟩ arg flags := by
  cases arg with
  | ptr fs =>
    simp only [parseCL, h]
    rw [walkEnvBlind nm e1 e2 .contOnErr .contOnErr fs "" [] [] []]
  | ptrNonStruct => rfl
  | nonPtr => rfl

/-- Witness for C3 at the Port record with two different environments. -/
theorem bee_C3_witness :
    parseCL ⟨"cool", envOne "COOL_PORT" "8080", .contOnErr⟩
        (.ptr (cfgPort "3000")) ["--help"] =
      parseCL ⟨"cool", envNone, .contOnErr⟩ (.ptr (cfgPort "3000")) ["--help"] :=
  bee_C3 (.ptr (cfgPort "3000")) ["--help"] "cool"
    (envOne "COOL_PORT" "8080") envNone (by decide)

/- Every error the field loop produces is a coercion failure wrapped
with the failing field's name and a phase tag that is either env or
def (nested-record errors propagate unchanged, so the property holds
at every depth). -/
def walkErrShape (cl : CL) (hlp : Bool) :
    ∀ (fs : Fields) (pfx : String) (path lk : List String) (rg : List Reg) (e : BErr),
      (walkF cl hlp pfx path lk rg fs).err = some e →
      ∃ nmf phase inner, e = .fieldErr nmf phase inner ∧ (phase = "env" ∨ phase = "def")
  | .nil, _, _, _, _, _ => by
    intro h
    simp [walkF] at h
  | .cons nmf tags (.sub sfs) rest, pfx, path, lk, rg, e => by
    intro h
    simp only [walkF] at h
    rcases hres : walkF cl hlp (childPfx nmf pfx) (path ++ [nmf]) lk rg sfs with
      ⟨lk2, rg2, sfs2, oe⟩
    rw [hres] at h
    cases oe with
    | some e2 =>
      dsimp only at h
      cases h
      exact walkErrShape cl hlp sfs (childPfx nmf pfx) (path ++ [nmf]) lk rg e
        (by rw [hres])
    | none =>
      dsimp only at h
      exact walkErrShape cl hlp rest pfx path lk2 rg2 e h
  | .cons nmf tags (.term v) rest, pfx, path, lk, rg, e => by
    intro h
    simp only [walkF] at h
    cases henv : cl.lookupEnv (envVarNameF cl.name nmf tags pfx) with
    | some ev =>
      rw [henv] at h
      cases hlp with
      | true =>
        dsimp only at h
        rcases hpv : parseValue v (flagNameF nmf tags pfx) tags.defv
            (usageF nmf tags (envVarNameF cl.name nmf tags pfx) pfx) (path ++ [nmf]) with
          e2 | ⟨v2, r⟩ <;> rw [hpv] at h <;> dsimp only at h
        · cases h
          exact ⟨nmf, "def", e2, rfl, Or.inr rfl⟩
        · exact walkErrShape cl true rest pfx path
            (lk ++ [envVarNameF cl.name nmf tags pfx]) (rg ++ [r]) e h
      | false =>
        dsimp only at h
        rcases hpv : parseValue v (flagNameF nmf tags pfx) ev
            (usageF nmf tags (envVarNameF cl.name nmf tags pfx) pfx) (path ++ [nmf]) with
          e2 | ⟨v2, r⟩ <;> rw [hpv] at h <;> dsimp only at h
        · cases h
          exact ⟨nmf, "env", e2, rfl, Or.inl rfl⟩
        · exact walkErrShape cl false rest pfx path
            (lk ++ [envVarNameF cl.name nmf tags pfx]) (rg ++ [r]) e h
    | none =>
      rw [henv] at h
      dsimp only at h
      rcases hpv : parseValue v (flagNameF nmf tags pfx) tags.defv
          (usageF nmf tags (envVarNameF cl.name nmf tags pfx) pfx) (path ++ [nmf]) with
        e2 | ⟨v2, r⟩ <;> rw [hpv] at h <;> dsimp only at h
      · cases h
        exact ⟨nmf, "def", e2, rfl, Or.inr rfl⟩
      · exact walkErrShape cl hlp rest pfx path
          (lk ++ [envVarNameF cl.name nmf tags pfx]) (rg ++ [r]) e h

lemma urlSet_err (s : String) (e : BErr) (h : urlSet s = .error e) :
    ∃ c, e = .parseErr "url" s c := by
  simp only [urlSet] at h
  split at h
  · exact Except.noConfusion h
  · injection h with h2
    exact ⟨_, h2.symm⟩

lemma timeSet_err (s : String) (e : BErr) (h : timeSet s = .error e) :
    ∃ c, e = .parseErr "time" s c := by
  simp only [timeSet] at h
  split at h
  · exact Except.noConfusion h
  · injection h with h2
    exact ⟨_, h2.symm⟩

lemma intSliceSet_err (s : String) (e : BErr) (h : intSliceSet s = .error e) :
    ∃ c, e = .parseErr "int slice" s c := by
  simp only [intSliceSet] at h
  split at h
  · exact Except.noConfusion h
  · injection h with h2
    exact ⟨_, h2.symm⟩

/-- Every coercion failure is either the UnsupportedType error naming
the field's kind or a ParseError carrying the offending source text
verbatim. -/
lemma parseValue_err_shape (v : TermVal) (fN value us : String) (path : List String)
    (e : BErr) (h : parseValue v fN value us path = .error e) :
    e = .unsupported (goKind v) ∨ ∃ w c, e = .parseErr w value c := by
  cases v with
  | vMap =>
    injection h with h2
    exact Or.inl h2.symm
  | vURL u =>
    simp only [parseValue, parseURLF] at h
    split at h
    · exact Except.noConfusion h
    · split at h
      next a heq =>
        injection h with h2
        obtain ⟨c, hc⟩ := urlSet_err value a heq
        exact Or.inr ⟨"url", c, by rw [← h2]; exact hc⟩
      next u2 heq => exact Except.noConfusion h
  | vTime t =>
    simp only [parseValue, parseTimeF] at h
    split at h
    · exact Except.noConfusion h
    · split at h
      next a heq =>
        injection h with h2
        obtain ⟨c, hc⟩ := timeSet_err value a heq
        exact Or.inr ⟨"time", c, by rw [← h2]; exact hc⟩
      next t2 heq => exact Except.noConfusion h
  | vIntSlice l =>
    simp only [parseValue, parseIntSliceF] at h
    split at h
    · exact Except.noConfusion h
    · split at h
      next a heq =>
        injection h with h2
        obtain ⟨c, hc⟩ := intSliceSet_err value a heq
        exact Or.inr ⟨"int slice", c, by rw [← h2]; exact hc⟩
      next l2 heq => exact Except.noConfusion h
  | _ =>
    simp only [parseValue, parseBoolF, parseUintF, parseUint64F, parseIntF, parseInt64F,
      parseDurationF, parseStrSliceF] at h
    (repeat' split at h) <;>
    first
      | exact Except.noConfusion h
      | (injection h with h2; exact Or.inr ⟨_, _, h2.symm⟩)

/-- A record with two fields whose defaults both fail to coerce; the
second starts at a sentinel to show the walk stopped at the first. -/
def twoBadRecord : Fields :=
  .cons "A" (defTag "x") (.term (.vInt 0))
    (.cons "B" (defTag "y") (.term (.vInt 5)) .nil)

/-- C7: an error from the walk is always the coercion failure wrapped
with the failing field's name and the phase tag env or def; the
coercion failure itself carries the offending source text verbatim (or
is the UnsupportedType error); concretely, an unparsable environment
value yields phase env with that value, an unparsable default yields
phase def with the default text, and the walk aborts at the first such
error, leaving later fields untouched and unregistered. -/
theorem bee_C7 :
    (∀ (cl : CL) (hlp : Bool) (fs : Fields) (pfx : String) (path lk : List String)
        (rg : List Reg) (e : BErr),
      (walkF cl hlp pfx path lk rg fs).err = some e →
      ∃ nmf phase inner, e = .fieldErr nmf phase inner ∧ (phase = "env" ∨ phase = "def")) ∧
    (∀ (v : TermVal) (fN value us : String) (path : List String) (e : BErr),
      parseValue v fN value us path = .error e →
      e = .unsupported (goKind v) ∨ ∃ w c, e = .parseErr w value c) ∧
    (parseCL ⟨"cool", envOne "COOL_PORT" "xx", .contOnErr⟩ (.ptr (cfgPort "3000")) []).outcome =
      .err (.fieldErr "Port" "env" (.parseErr "int" "xx" (sErrMsg ⟨"Atoi", "xx", false⟩))) ∧
    (parseCL ⟨"cool", envNone, .contOnErr⟩ (.ptr (cfgPort "abc")) []).outcome =
      .err (.fieldErr "Port" "def" (.parseErr "int" "abc" (sErrMsg ⟨"Atoi", "abc", false⟩))) ∧
    (parseCL ⟨"cool", envNone, .contOnErr⟩ (.ptr twoBadRecord) []).outcome =
      .err (.fieldErr "A" "def" (.parseErr "int" "x" (sErrMsg ⟨"Atoi", "x", false⟩))) ∧
    getF (cfgFields (parseCL ⟨"cool", envNone, .contOnErr⟩ (.ptr twoBadRecord) []).cfg) ["B"] =
      some (.vInt 5) ∧
    (parseCL ⟨"cool", envNone, .contOnErr⟩ (.ptr twoBadRecord) []).regs = [] :=
  ⟨fun cl hlp fs pfx path lk rg e h => walkErrShape cl hlp fs pfx path lk rg e h,
   fun v fN value us path e h => parseValue_err_shape v fN value us path e h,
   rfl, rfl, rfl, rfl, rfl⟩

/-- Witness for C7's universal parts at a concrete failing walk and a
concrete failing coercion. -/
theorem bee_C7_witness :
    (∃ nmf phase inner,
      BErr.fieldErr "Port" "def" (.parseErr "int" "abc" (sErrMsg ⟨"Atoi", "abc", false⟩)) =
        .fieldErr nmf phase inner ∧ (phase = "env" ∨ phase = "def")) ∧
    (BErr.parseErr "int" "abc" (sErrMsg ⟨"Atoi", "abc", false⟩) =
        .unsupported (goKind (.vInt 0)) ∨
      ∃ w c, BErr.parseErr "int" "abc" (sErrMsg ⟨"Atoi", "abc", false⟩) =
        .parseErr w "abc" c) :=
  ⟨bee_C7.1 ⟨"cool", envNone, .contOnErr⟩ false (cfgPort "abc") "" [] [] []
      (.fieldErr "Port" "def" (.parseErr "int" "abc" (sErrMsg ⟨"Atoi", "abc", false⟩))) rfl,
   bee_C7.2.1 (.vInt 0) "port" "abc" "u" ["Port"]
      (.parseErr "int" "abc" (sErrMsg ⟨"Atoi", "abc", false⟩)) rfl⟩

/-! ### C9: unsigned-integer bounds -/

/-- Spec-side value of a decimal digit string: positional evaluation
through Mathlib's Nat.ofDigits, least-significant digit first. -/
def decimalVal (s : String) : Option Nat :=
  if s.toList ≠ [] ∧ s.toList.all Char.isDigit then
    some (Nat.ofDigits 10 ((s.toList.map digitVal).reverse))
  else none

lemma foldl_base_acc (b : Nat) (ds : List Nat) :
    ∀ a, ds.foldl (fun x d => b * x + d) a =
      a * b ^ ds.length + ds.foldl (fun x d => b * x + d) 0 := by
  induction ds with
  | nil => intro a; simp
  | cons d ds ih =>
    intro a
    simp only [List.foldl_cons, List.length_cons]
    rw [ih (b * a + d), ih (b * 0 + d)]
    ring

lemma ofDigits_reverse (ds : List Nat) :
    Nat.ofDigits 10 ds.reverse = accDigits 10 ds := by
  induction ds with
  | nil => simp [accDigits, Nat.ofDigits]
  | cons d ds ih =>
    simp only [List.reverse_cons, Nat.ofDigits_append, List.length_reverse, ih]
    have h1 : (Nat.ofDigits 10 [d] : ℕ) = d := by
      simp [Nat.ofDigits]
    rw [h1]
    simp only [accDigits, List.foldl_cons]
    rw [foldl_base_acc 10 ds (10 * 0 + d)]
    ring

/-- goParseUint on a digit string computes exactly the decimal value,
bounded by the requested bit size. -/
lemma goParseUint_char (s : String) (v bits : Nat) (h : decimalVal s = some v) :
    goParseUint s bits =
      if v < 2 ^ bits then .ok v else .error ⟨"ParseUint", s, true⟩ := by
  simp only [decimalVal] at h
  split at h
  case isTrue hc =>
    have hval : accDigits 10 (s.toList.map digitVal) = v := by
      rw [← ofDigits_reverse]
      exact Option.some.inj h
    simp only [goParseUint]
    rw [if_neg, hval]
    push_neg
    exact ⟨hc.1, hc.2⟩
  case isFalse => exact Option.noConfusion h

lemma decimalVal_ne_empty (s : String) (v : Nat) (h : decimalVal s = some v) : s ≠ "" := by
  intro he
  subst he
  simp [decimalVal] at h

/-- C9: a native unsigned field's non-empty source text goes through a
base-10 unsigned parse bounded at 32 bits — it resolves exactly when
the decimal value is below 2 to the 32, and overflow is a range
ParseError wrapping the text — while the 64-bit unsigned kind is
bounded at 64 bits, accepting 18446744073709551615 and rejecting
18446744073709551616. -/
theorem bee_C9 :
    (∀ (s : String) (v : Nat), decimalVal s = some v →
      (goParseUint s 32 = .ok v ↔ v < 2 ^ 32) ∧
      (goParseUint s 64 = .ok v ↔ v < 2 ^ 64) ∧
      (¬ v < 2 ^ 32 → goParseUint s 32 = .error ⟨"ParseUint", s, true⟩)) ∧
    (∀ (u0 : Nat) (fN us : String) (path : List String) (s : String) (v : Nat),
      decimalVal s = some v →
      (v < 2 ^ 32 →
        parseValue (.vUint u0) fN s us path = .ok (.vUint v, ⟨fN, path, false, us⟩)) ∧
      (¬ v < 2 ^ 32 →
        parseValue (.vUint u0) fN s us path =
          .error (.parseErr "uint" s (sErrMsg ⟨"ParseUint", s, true⟩)))) ∧
    (∀ (u0 : Nat) (fN us : String) (path : List String),
      parseValue (.vUint64 u0) fN "18446744073709551615" us path =
        .ok (.vUint64 (2 ^ 64 - 1), ⟨fN, path, false, us⟩)) ∧
    (∀ (u0 : Nat) (fN us : String) (path : List String),
      parseValue (.vUint64 u0) fN "18446744073709551616" us path =
        .error (.parseErr "uint64" "18446744073709551616"
          (sErrMsg ⟨"ParseUint", "18446744073709551616", true⟩))) := by
  refine ⟨?_, ?_, ?_, ?_⟩
  · intro s v h
    have hc := goParseUint_char s v 32 h
    have hc64 := goParseUint_char s v 64 h
    refine ⟨?_, ?_, ?_⟩
    · by_cases hv : v < 2 ^ 32 <;> simp [hc, hv]
    · by_cases hv : v < 2 ^ 64 <;> simp [hc64, hv]
    · intro hv
      rw [hc, if_neg hv]
  · intro u0 fN us path s v h
    have hne := decimalVal_ne_empty s v h
    have hc := goParseUint_char s v 32 h
    constructor
    · intro hv
      simp only [parseValue, parseUintF, if_neg hne, hc, if_pos hv]
    · intro hv
      simp only [parseValue, parseUintF, if_neg hne, hc, if_neg hv]
  · intro u0 fN us path
    rfl
  · intro u0 fN us path
    rfl

/-- Witness for C9 at the boundary value 4294967296, which the 32-bit
unsigned kind rejects while being well below the 64-bit bound. -/
theorem bee_C9_witness :
    (goParseUint "4294967296" 32 = .ok 4294967296 ↔ (4294967296 : Nat) < 2 ^ 32) ∧
    (goParseUint "4294967296" 64 = .ok 4294967296 ↔ (4294967296 : Nat) < 2 ^ 64) ∧
    (¬ (4294967296 : Nat) < 2 ^ 32 →
      goParseUint "4294967296" 32 = .error ⟨"ParseUint", "4294967296", true⟩) :=
  bee_C9.1 "4294967296" 4294967296 (by decide)

/-! ### C1: the precedence chain -/

lemma atoi_ok_ne_empty (s : String) (v : Int) (h : goAtoi s = .ok v) : s ≠ "" := by
  intro he
  subst he
  simp [goAtoi, goParseIntCore] at h

/- One unfolding of the walk over the Port record: the lookup of
COOL_PORT happens once, the environment path is taken exactly when the
lookup succeeds and no help token was seen, and the selected text is
coerced and bound. -/
lemma walk_port_shape (env : String → Option String) (eh : EH) (hlp : Bool) (dt : String) :
    walkF ⟨"cool", env, eh⟩ hlp "" [] [] [] (cfgPort dt) =
      (match env "COOL_PORT" with
       | some ev =>
         if hlp then
           (match parseValue (.vInt 0) "port" dt "port (env COOL_PORT)" ["Port"] with
            | .error e => ⟨["COOL_PORT"], [], cfgPort dt, some (.fieldErr "Port" "def" e)⟩
            | .ok (v2, r) =>
              ⟨["COOL_PORT"], [r], .cons "Port" (defTag dt) (.term v2) .nil, none⟩)
         else
           (match parseValue (.vInt 0) "port" ev "port (env COOL_PORT)" ["Port"] with
            | .error e => ⟨["COOL_PORT"], [], cfgPort dt, some (.fieldErr "Port" "env" e)⟩
            | .ok (v2, r) =>
              ⟨["COOL_PORT"], [r], .cons "Port" (defTag dt) (.term v2) .nil, none⟩)
       | none =>
         match parseValue (.vInt 0) "port" dt "port (env COOL_PORT)" ["Port"] with
         | .error e => ⟨["COOL_PORT"], [], cfgPort dt, some (.fieldErr "Port" "def" e)⟩
         | .ok (v2, r) =>
           ⟨["COOL_PORT"], [r], .cons "Port" (defTag dt) (.term v2) .nil, none⟩) := rfl

/- One unfolding of the final flag parse over the arguments -port a
with the single registration the walk produced: the flag is found, it
is not boolean, so the next argument is consumed as its value and
written through the registered path. -/
lemma fsParse_port (fs : Fields) (path : List String) (us a : String) :
    fsParse [⟨"port", path, false, us⟩] fs ["-port", a] =
      (match setAt fs path a with
       | .error c => (fs, some (.flagBadValue a "port" c))
       | .ok fs2 => (fs2, none)) := rfl

/-- C1: the resolved value of every terminal field follows the
precedence chain command-line flag over environment value over
declared default text over kind zero value.  Universally: (1) for a
terminal field of any kind, name and tags, at any position in any
record, under any environment, the walk coerces the selected source —
the environment value when the lookup succeeds and no help token was
seen, else the declared default (selectSrc) — and binds the result;
(2) an empty selected text leaves the kind's zero value; (3) and (4)
the final registry parse overrides the registered field with the
command-line value, for non-boolean flags (consuming the next
argument) and boolean flags (taking =value or true, consuming
nothing); and on the Port record under command cool: a command-line
value wins whatever the environment or default say, an environment
value wins over the default, the default is used when neither is
present, an empty default leaves zero, and concretely with env
COOL_PORT=8080 and argv -port 9090 the field resolves to 9090. -/
theorem bee_C1 :
    (∀ (cl : CL) (hlp : Bool) (pfx : String) (path lk : List String) (rg : List Reg)
        (pre : Fields) (nm : String) (tags : Tags) (v : TermVal) (suf : Fields),
      (walkF cl hlp pfx path lk rg pre).err = none →
      walkF cl hlp pfx path lk rg (appendF pre (.cons nm tags (.term v) suf)) =
        (match parseValue v (flagNameF nm tags pfx)
            (selectSrc cl hlp (envVarNameF cl.name nm tags pfx) tags.defv).1
            (usageF nm tags (envVarNameF cl.name nm tags pfx) pfx) (path ++ [nm]) with
         | .error e =>
           ⟨(walkF cl hlp pfx path lk rg pre).looked ++ [envVarNameF cl.name nm tags pfx],
            (walkF cl hlp pfx path lk rg pre).regs,
            appendF (walkF cl hlp pfx path lk rg pre).fields (.cons nm tags (.term v) suf),
            some (.fieldErr nm
              (selectSrc cl hlp (envVarNameF cl.name nm tags pfx) tags.defv).2 e)⟩
         | .ok (v2, r) =>
           let rr := walkF cl hlp pfx path
             ((walkF cl hlp pfx path lk rg pre).looked ++ [envVarNameF cl.name nm tags pfx])
             ((walkF cl hlp pfx path lk rg pre).regs ++ [r]) suf
           ⟨rr.looked, rr.regs,
            appendF (walkF cl hlp pfx path lk rg pre).fields
              (.cons nm tags (.term v2) rr.fields),
            rr.err⟩)) ∧
    (∀ (v : TermVal) (fN us : String) (path : List String), v ≠ .vMap →
      parseValue v fN "" us path = .ok (zeroOf v, ⟨fN, path, isBoolKind v, us⟩)) ∧
    (∀ (regs : List Reg) (fs fs2 : Fields) (r : Reg) (tok a : String)
        (rest : List String),
      scanFlag tok = .name r.name none →
      regs.find? (fun q => q.name = r.name) = some r →
      r.isBool = false →
      setAt fs r.path a = .ok fs2 →
      fsParse regs fs (tok :: a :: rest) = fsParse regs fs2 rest) ∧
    (∀ (regs : List Reg) (fs fs2 : Fields) (r : Reg) (tok : String)
        (eqv : Option String) (rest : List String),
      scanFlag tok = .name r.name eqv →
      regs.find? (fun q => q.name = r.name) = some r →
      r.isBool = true →
      setAt fs r.path (eqv.getD "true") = .ok fs2 →
      fsParse regs fs (tok :: rest) = fsParse regs fs2 rest) ∧
    (∀ (env : String → Option String) (et a dt : String) (ev av : Int),
      env "COOL_PORT" = some et → goAtoi et = .ok ev → goParseInt0 a = .ok av →
      isHelpToken a = false →
      getF (cfgFields (parseCL ⟨"cool", env, .contOnErr⟩ (.ptr (cfgPort dt))
        ["-port", a]).cfg) ["Port"] = some (.vInt av)) ∧
    (∀ (env : String → Option String) (et dt : String) (ev : Int),
      env "COOL_PORT" = some et → goAtoi et = .ok ev →
      getF (cfgFields (parseCL ⟨"cool", env, .contOnErr⟩ (.ptr (cfgPort dt)) []).cfg)
        ["Port"] = some (.vInt ev)) ∧
    (∀ (dt : String) (dv : Int), goAtoi dt = .ok dv →
      getF (cfgFields (parseCL ⟨"cool", envNone, .contOnErr⟩ (.ptr (cfgPort dt)) []).cfg)
        ["Port"] = some (.vInt dv)) ∧
    getF (cfgFields (parseCL ⟨"cool", envNone, .contOnErr⟩ (.ptr (cfgPort "")) []).cfg)
      ["Port"] = some (.vInt 0) ∧
    getF (cfgFields (parseCL ⟨"cool", envOne "COOL_PORT" "8080", .contOnErr⟩
      (.ptr (cfgPort "3000")) ["-port", "9090"]).cfg) ["Port"] = some (.vInt 9090) := by
  refine ⟨?_, ?_, ?_, ?_, ?_, ?_, ?_, rfl, rfl⟩
  · exact fun cl hlp pfx path lk rg pre nm tags v suf hpre =>
      walk_split cl hlp pfx path lk rg pre nm tags v suf hpre
  · exact fun v fN us path h => parseValue_empty v fN us path h
  · exact fun regs fs fs2 r tok a rest hscan hfind hb hset =>
      fsParse_override_nonbool regs fs fs2 r tok a rest hscan hfind hb hset
  · exact fun regs fs fs2 r tok eqv rest hscan hfind hb hset =>
      fsParse_override_bool regs fs fs2 r tok eqv rest hscan hfind hb hset
  · intro env et a dt ev av henv het ha hna
    have h1 : isHelpToken "-port" = false := by decide
    have hhelp : hasHelpToken ["-port", a] = false := by
      simp [hasHelpToken, h1, hna]
    have hne := atoi_ok_ne_empty et ev het
    simp only [parseCL, hhelp, walk_port_shape, henv]
    simp only [parseValue, parseIntF, if_neg hne, het]
    simp only [Bool.false_eq_true, if_false]
    rw [fsParse_port]
    have hsa : setAt (Fields.cons "Port" (defTag dt) (.term (.vInt ev)) .nil) ["Port"] a =
        .ok (Fields.cons "Port" (defTag dt) (.term (.vInt av)) .nil) := by
      simp only [setAt, setTermVal, ha]
      rfl
    rw [hsa]
    rfl
  · intro env et dt ev henv het
    have hne := atoi_ok_ne_empty et ev het
    simp only [parseCL, walk_port_shape, henv]
    simp only [parseValue, parseIntF, if_neg hne, het]
    rfl
  · intro dt dv hdt
    have hne := atoi_ok_ne_empty dt dv hdt
    simp only [parseCL, walk_port_shape]
    simp only [envNone]
    simp only [parseValue, parseIntF, if_neg hne, hdt]
    rfl

/-- Witness for C1's universal conjuncts: the per-field source
selection at the Port field with env COOL_PORT=8080, the non-boolean
command-line override at -port 9090, the boolean override at a bare
-v flag, and the end-to-end scenario. -/
theorem bee_C1_witness :
    walkF ⟨"cool", envOne "COOL_PORT" "8080", .contOnErr⟩ false "" [] [] []
        (appendF .nil (.cons "Port" (defTag "3000") (.term (.vInt 0)) .nil)) =
      ⟨["COOL_PORT"], [⟨"port", ["Port"], false, "port (env COOL_PORT)"⟩],
       .cons "Port" (defTag "3000") (.term (.vInt 8080)) .nil, none⟩ ∧
    fsParse [⟨"port", ["Port"], false, "u"⟩]
        (.cons "Port" noTags (.term (.vInt 8080)) .nil) ["-port", "9090"] =
      fsParse [⟨"port", ["Port"], false, "u"⟩]
        (.cons "Port" noTags (.term (.vInt 9090)) .nil) [] ∧
    fsParse [⟨"v", ["V"], true, "u"⟩]
        (.cons "V" noTags (.term (.vBool false)) .nil) ["-v"] =
      fsParse [⟨"v", ["V"], true, "u"⟩]
        (.cons "V" noTags (.term (.vBool true)) .nil) [] ∧
    getF (cfgFields (parseCL ⟨"cool", envOne "COOL_PORT" "8080", .contOnErr⟩
      (.ptr (cfgPort "3000")) ["-port", "9090"]).cfg) ["Port"] = some (.vInt 9090) :=
  ⟨bee_C1.1 ⟨"cool", envOne "COOL_PORT" "8080", .contOnErr⟩ false "" [] [] []
      .nil "Port" (defTag "3000") (.vInt 0) .nil rfl,
   bee_C1.2.2.1 [⟨"port", ["Port"], false, "u"⟩]
      (.cons "Port" noTags (.term (.vInt 8080)) .nil)
      (.cons "Port" noTags (.term (.vInt 9090)) .nil)
      ⟨"port", ["Port"], false, "u"⟩ "-port" "9090" [] rfl rfl rfl rfl,
   bee_C1.2.2.2.1 [⟨"v", ["V"], true, "u"⟩]
      (.cons "V" noTags (.term (.vBool false)) .nil)
      (.cons "V" noTags (.term (.vBool true)) .nil)
      ⟨"v", ["V"], true, "u"⟩ "-v" none [] rfl rfl rfl rfl,
   bee_C1.2.2.2.2.1 (envOne "COOL_PORT" "8080") "8080" "9090" "3000" 8080 9090
      (by decide) rfl rfl (by decide)⟩

end Bee
